import Mathlib

/-!
Shallow embedding of the core of `rust-idle`, a daemon that watches per-device
I/O counters and spins down idle disks.

The embedding covers:
* the wrapping machine arithmetic used for counter diffing (`usize` is 64 bits,
  modelled as `Nat` reduced modulo `2 ^ 64`; `u8` likewise modulo `256`);
* the per-device state machine `Device::tick` from `src/main.rs`;
* the `/proc/diskstats` line parser `parse_line` and `parse_integer` from
  `src/iomonitor.rs` and `src/utils.rs`;
* the hint-based ledger update `IOMonitor::check_activity` and `get_entry_idx`
  from `src/iomonitor.rs`;
* the mount enumeration and sync orchestration `Mounts::for_dev`
  (`src/mounts.rs`) and `sync_block_device` (`src/main.rs`).

I/O is represented by passing the text read from the snapshot source (an
optional list of byte lists; `none` models a read failure) and by recording
requested side effects (sync / spin-down commands, `syncfs` calls) as explicit
lists.  Rust `format!`-built error strings are modelled as structured error
values carrying the same data the format string interpolates (in particular
the raw offending line).  Wall-clock `SystemTime` is a natural number of
seconds since the Unix epoch, `Duration` a natural number of seconds.
-/

namespace RustIdle

/-- Bit width modulus of the target's `usize` (64-bit). -/
def USIZE : Nat := 2 ^ 64

/-- `usize::wrapping_sub` on naturals reduced modulo `2 ^ 64`. -/
def wrappingSub (a b : Nat) : Nat := (a % USIZE + (USIZE - b % USIZE)) % USIZE

/-- `usize::wrapping_add`. -/
def wrappingAdd (a b : Nat) : Nat := (a + b) % USIZE

/-- `usize::wrapping_mul`. -/
def wrappingMul (a b : Nat) : Nat := (a * b) % USIZE

/-- `u8::wrapping_sub`. -/
def u8WrappingSub (a b : Nat) : Nat := (a % 256 + (256 - b % 256)) % 256

/-- `DeviceState` from `src/main.rs`. -/
inductive DeviceState
  | Spinning
  | Synced
  | Idle
  deriving DecidableEq, Repr

/-- `DeviceConfig` from `src/main.rs`: idle time (seconds), sync flag bitset,
verbosity. -/
structure DeviceConfig where
  idle_time : Nat
  sync_flags : Nat
  verbosity : Nat
  deriving DecidableEq, Repr

/-- `SYNC_SPIN_DOWN` flag bit from `src/main.rs`. -/
def SYNC_SPIN_DOWN : Nat := 1

/-- `SYNC_SPIN_UP` flag bit from `src/main.rs`. -/
def SYNC_SPIN_UP : Nat := 2

/-- `DeviceData` from `src/main.rs`: retained cumulative sector counter,
machine state, time of last detected activity, configuration. -/
structure DeviceData where
  sectors : Nat
  state : DeviceState
  last_io : Nat
  config : DeviceConfig
  deriving DecidableEq, Repr

/-- `impl From<DeviceConfig> for DeviceData` (`src/main.rs` lines 40-49):
a fresh record starts `Spinning` with zero retained sectors and `last_io`
at the Unix epoch (`UNIX_EPOCH`, i.e. `0`). -/
def DeviceData.fromConfig (config : DeviceConfig) : DeviceData :=
  { config := config, state := .Spinning, sectors := 0, last_io := 0 }

/-- Side-effect requests issued by the state machine (calls to
`sync_block_device` and `sys::spindown_disk` in `src/main.rs`). -/
inductive Effect
  | syncRequest (dev : List Nat)
  | spindownRequest (dev : List Nat)
  deriving DecidableEq, Repr

/-- The per-tick sector delta (`src/main.rs` line 65):
`new_sectors.wrapping_sub(device_data.sectors)`. -/
def Device.sectorsInc (newSectors retained : Nat) : Nat :=
  wrappingSub newSectors retained

/-- The busy signal (`src/main.rs` line 66): `sectors_inc != 0`. -/
def Device.busy (newSectors retained : Nat) : Prop :=
  Device.sectorsInc newSectors retained ≠ 0

instance (n r : Nat) : Decidable (Device.busy n r) := by
  unfold Device.busy; infer_instance

/-- Result of one `Device::tick`: the returned state, the mutated
`DeviceData`, and the side-effect requests issued (in program order). -/
structure TickRes where
  ret : DeviceState
  data : DeviceData
  effects : List Effect
  deriving DecidableEq, Repr

/-- `Device::tick` from `src/main.rs` lines 59-146.  `none` models the
`expect("non monotonic time")` panic when `now` is before `last_io`.
Logging is not modelled; the calls to `sync_block_device` and
`sys::spindown_disk` are recorded as effects (their own failures are handled
inside `tick` and do not influence the computed state). -/
def Device.tick (now : Nat) (devName : List Nat) (newSectors : Nat)
    (d : DeviceData) : Option TickRes :=
  let sectorsInc := Device.sectorsInc newSectors d.sectors
  let d1 := if sectorsInc = 0 then d
            else { d with sectors := newSectors, last_io := now }
  let idleDur? : Option Nat :=
    if sectorsInc = 0 then
      (if d.last_io ≤ now then some (now - d.last_io) else none)
    else some 0
  match idleDur? with
  | none => none
  | some idleDur =>
    if d.config.idle_time = 0 then some ⟨.Spinning, d1, []⟩
    else
      let next : DeviceState × List Effect :=
        match d1.state with
        | .Spinning =>
          if d.config.idle_time ≤ idleDur then
            if d.config.sync_flags &&& SYNC_SPIN_DOWN = 0 then
              (.Idle, [Effect.spindownRequest devName])
            else
              (.Synced, [Effect.syncRequest devName,
                         Effect.spindownRequest devName])
          else (.Spinning, [])
        | .Synced => (.Idle, [])
        | .Idle =>
          if sectorsInc = 0 then (.Idle, [])
          else if d.config.sync_flags &&& SYNC_SPIN_UP = 0 then
            (.Spinning, [])
          else (.Spinning, [Effect.syncRequest devName])
      some ⟨next.1, { d1 with state := next.1 }, next.2⟩

/-- A trace of repeated ticks of a single device: the final `DeviceData`,
the list of states returned by each tick, and all side effects issued
(in order).  `none` if any tick panics on non-monotonic time. -/
def runTicks (devName : List Nat) :
    List (Nat × Nat) → DeviceData → Option (DeviceData × List DeviceState × List Effect)
  | [], d => some (d, [], [])
  | (now, secs) :: steps, d =>
    match Device.tick now devName secs d with
    | none => none
    | some r =>
      match runTicks devName steps r.data with
      | none => none
      | some (d', sts, effs) => some (d', r.ret :: sts, r.effects ++ effs)

lemma tick_unconfigured (now : Nat) (nm : List Nat) (ns : Nat) (d : DeviceData)
    (h0 : d.config.idle_time = 0) (r : TickRes)
    (h : Device.tick now nm ns d = some r) :
    r.ret = .Spinning ∧ r.data.state = d.state ∧ r.data.config = d.config ∧
      r.effects = [] := by
  by_cases hq : Device.sectorsInc ns d.sectors = 0
  · by_cases hm : d.last_io ≤ now
    · have ht : Device.tick now nm ns d = some ⟨.Spinning, d, []⟩ := by
        simp [Device.tick, hq, hm, h0]
      rw [ht] at h
      obtain rfl := (Option.some.inj h).symm
      simp
    · have ht : Device.tick now nm ns d = none := by
        simp [Device.tick, hq, hm]
      rw [ht] at h
      exact absurd h (by simp)
  · have ht : Device.tick now nm ns d =
        some ⟨.Spinning, { d with sectors := ns, last_io := now }, []⟩ := by
      simp [Device.tick, hq, h0]
    rw [ht] at h
    obtain rfl := (Option.some.inj h).symm
    simp

/-- C1: for counters within the machine word, the per-tick delta computed by
`Device::tick` (`new_sectors.wrapping_sub(device_data.sectors)`) is exactly
the mathematical wrapping difference — the integer difference reduced modulo
`2 ^ 64` — and the busy signal holds iff that wrapping difference is nonzero,
i.e. iff the two counter values differ, including across an overflow of the
representable maximum. -/
theorem tick_delta_wrapping (n o : Nat) (hn : n < USIZE) (ho : o < USIZE) :
    ((Device.sectorsInc n o : Int) = ((n : Int) - (o : Int)) % (USIZE : Int))
    ∧ (Device.busy n o ↔ n ≠ o) := by
  have hW : USIZE = 18446744073709551616 := by norm_num [USIZE]
  unfold Device.busy Device.sectorsInc wrappingSub
  rw [hW] at hn ho ⊢
  constructor
  · have h1 : n % 18446744073709551616 = n := Nat.mod_eq_of_lt hn
    have h2 : o % 18446744073709551616 = o := Nat.mod_eq_of_lt ho
    rw [h1, h2]
    push_cast [Nat.le_of_lt ho]
    omega
  · constructor
    · intro h; omega
    · intro h; omega

theorem tick_delta_wrapping_witness :
    ((Device.sectorsInc 3 (USIZE - 5) : Int) =
      ((3 : Int) - ((USIZE - 5 : Nat) : Int)) % (USIZE : Int))
    ∧ (Device.busy 3 (USIZE - 5) ↔ (3 : Nat) ≠ USIZE - 5) :=
  tick_delta_wrapping 3 (USIZE - 5) (by norm_num [USIZE]) (by norm_num [USIZE])

lemma tick_spinning_timeout (now : Nat) (nm : List Nat) (ns : Nat)
    (d : DeviceData) (hidle : 0 < d.config.idle_time) (hst : d.state = .Spinning)
    (hquiet : Device.sectorsInc ns d.sectors = 0) (hmono : d.last_io ≤ now)
    (hdur : d.config.idle_time ≤ now - d.last_io) :
    ∃ r, Device.tick now nm ns d = some r ∧
      Effect.spindownRequest nm ∈ r.effects ∧
      (d.config.sync_flags &&& SYNC_SPIN_DOWN ≠ 0 →
        r.data.state = .Synced ∧
        r.effects = [.syncRequest nm, .spindownRequest nm]) ∧
      (d.config.sync_flags &&& SYNC_SPIN_DOWN = 0 →
        r.data.state = .Idle ∧ r.effects = [.spindownRequest nm]) := by
  have h0 : ¬ d.config.idle_time = 0 := by omega
  by_cases hf : d.config.sync_flags &&& SYNC_SPIN_DOWN = 0
  · refine ⟨⟨.Idle, { d with state := .Idle }, [.spindownRequest nm]⟩, ?_, by simp,
      fun hne => absurd hf hne, by simp⟩
    unfold Device.tick
    simp [hquiet, hmono, h0, hst, hdur, hf]
  · refine ⟨⟨.Synced, { d with state := .Synced },
      [.syncRequest nm, .spindownRequest nm]⟩, ?_, by simp, by simp,
      fun he => absurd he hf⟩
    unfold Device.tick
    simp [hquiet, hmono, h0, hst, hdur, hf]

/-- C2: a device with positive `idle_time`, currently `Spinning`, not busy
this tick, whose idle duration reached `idle_time`: with the `SPIN_DOWN` sync
flag set it requests sync orchestration and moves to `Synced`; without the
flag it moves directly to `Idle`; in both branches the spin-down command is
requested unconditionally. -/
theorem spinning_timeout_spins_down (now : Nat) (nm : List Nat) (ns : Nat)
    (d : DeviceData) (hidle : 0 < d.config.idle_time) (hst : d.state = .Spinning)
    (hquiet : Device.sectorsInc ns d.sectors = 0) (hmono : d.last_io ≤ now)
    (hdur : d.config.idle_time ≤ now - d.last_io) :
    ∃ r, Device.tick now nm ns d = some r ∧
      Effect.spindownRequest nm ∈ r.effects ∧
      (d.config.sync_flags &&& SYNC_SPIN_DOWN ≠ 0 →
        r.data.state = .Synced ∧
        r.effects = [.syncRequest nm, .spindownRequest nm]) ∧
      (d.config.sync_flags &&& SYNC_SPIN_DOWN = 0 →
        r.data.state = .Idle ∧ r.effects = [.spindownRequest nm]) :=
  tick_spinning_timeout now nm ns d hidle hst hquiet hmono hdur

theorem spinning_timeout_spins_down_witness :
    ∃ r, Device.tick 100 [115, 100, 97] 0
        ⟨0, .Spinning, 10, ⟨60, 1, 0⟩⟩ = some r ∧
      Effect.spindownRequest [115, 100, 97] ∈ r.effects ∧
      ((⟨60, 1, 0⟩ : DeviceConfig).sync_flags &&& SYNC_SPIN_DOWN ≠ 0 →
        r.data.state = .Synced ∧
        r.effects = [.syncRequest [115, 100, 97], .spindownRequest [115, 100, 97]]) ∧
      ((⟨60, 1, 0⟩ : DeviceConfig).sync_flags &&& SYNC_SPIN_DOWN = 0 →
        r.data.state = .Idle ∧ r.effects = [.spindownRequest [115, 100, 97]]) :=
  spinning_timeout_spins_down 100 [115, 100, 97] 0
    ⟨0, .Spinning, 10, ⟨60, 1, 0⟩⟩ (by decide) rfl (by decide) (by decide) (by decide)

/-- C3: a device with positive `idle_time` in state `Synced` transitions to
`Idle` on the very next tick, even when that tick's delta is nonzero (the
busy signal is ignored for that one tick). -/
theorem synced_forced_idle (now : Nat) (nm : List Nat) (ns : Nat)
    (d : DeviceData) (hst : d.state = .Synced) (hidle : 0 < d.config.idle_time)
    (hok : Device.sectorsInc ns d.sectors ≠ 0 ∨ d.last_io ≤ now) :
    ∃ r, Device.tick now nm ns d = some r ∧ r.ret = .Idle ∧
      r.data.state = .Idle := by
  have h0 : ¬ d.config.idle_time = 0 := by omega
  by_cases hq : Device.sectorsInc ns d.sectors = 0
  · have hmono : d.last_io ≤ now := by tauto
    refine ⟨⟨.Idle, { d with state := .Idle }, []⟩, ?_, rfl, rfl⟩
    unfold Device.tick
    simp [hq, hmono, h0, hst]
  · refine ⟨⟨.Idle, { d with sectors := ns, last_io := now, state := .Idle }, []⟩, ?_, rfl, rfl⟩
    unfold Device.tick
    simp [hq, h0, hst]

theorem synced_forced_idle_witness :
    ∃ r, Device.tick 7 [] 42 ⟨0, .Synced, 99, ⟨60, 3, 0⟩⟩ = some r ∧
      r.ret = .Idle ∧ r.data.state = .Idle :=
  synced_forced_idle 7 [] 42 ⟨0, .Synced, 99, ⟨60, 3, 0⟩⟩ rfl (by decide)
    (Or.inl (by decide))

/-- C8: a device configured with `idle_time == 0` never has its state machine
evaluated: over any sequence of ticks starting from a freshly created record,
every tick reports `Spinning`, the stored state stays `Spinning`, and no
sync or spin-down effect is ever issued. -/
theorem unconfigured_never_evaluated (cfg : DeviceConfig) (nm : List Nat)
    (steps : List (Nat × Nat)) (h0 : cfg.idle_time = 0)
    (d' : DeviceData) (sts : List DeviceState) (effs : List Effect)
    (h : runTicks nm steps (DeviceData.fromConfig cfg) = some (d', sts, effs)) :
    d'.state = .Spinning ∧ (∀ s ∈ sts, s = .Spinning) ∧ effs = [] := by
  suffices H : ∀ steps (d : DeviceData), d.config.idle_time = 0 →
      d.state = .Spinning → ∀ d' sts effs,
      runTicks nm steps d = some (d', sts, effs) →
      d'.state = .Spinning ∧ (∀ s ∈ sts, s = .Spinning) ∧ effs = [] by
    exact H steps (DeviceData.fromConfig cfg) h0 rfl d' sts effs h
  intro steps
  induction steps with
  | nil =>
    intro d hcfg hsp d' sts effs h
    simp [runTicks] at h
    obtain ⟨h1, h2, h3⟩ := h
    subst h1; subst h2; subst h3
    simp [hsp]
  | cons step rest ih =>
    intro d hcfg hsp d' sts effs h
    obtain ⟨now, secs⟩ := step
    unfold runTicks at h
    cases hr : Device.tick now nm secs d with
    | none => simp [hr] at h
    | some r =>
      obtain ⟨hret, hstate, hconf, heffs⟩ :=
        tick_unconfigured now nm secs d hcfg r hr
      simp only [hr] at h
      cases hrest : runTicks nm rest r.data with
      | none => simp [hrest] at h
      | some out =>
        obtain ⟨d'', sts', effs'⟩ := out
        simp only [hrest] at h
        simp at h
        obtain ⟨h1, h2, h3⟩ := h
        obtain ⟨ha, hb, hc⟩ := ih r.data (by rw [hconf]; exact hcfg)
          (by rw [hstate]; exact hsp) d'' sts' effs' hrest
        subst h1
        constructor
        · exact ha
        constructor
        · intro s hs
          rw [← h2] at hs
          rcases List.mem_cons.mp hs with h | h
          · subst h; exact hret
          · exact hb s h
        · rw [← h3, heffs, hc]
          rfl

theorem unconfigured_never_evaluated_witness :
    (⟨7, .Spinning, 10, ⟨0, 3, 2⟩⟩ : DeviceData).state = .Spinning ∧
      (∀ s ∈ [DeviceState.Spinning, DeviceState.Spinning], s = .Spinning) ∧
      ([] : List Effect) = [] := by
  have h : runTicks [] [(5, 0), (10, 7)] (DeviceData.fromConfig ⟨0, 3, 2⟩) =
      some (⟨7, .Spinning, 10, ⟨0, 3, 2⟩⟩, [.Spinning, .Spinning], []) := by decide
  exact unconfigured_never_evaluated ⟨0, 3, 2⟩ [] [(5, 0), (10, 7)] rfl _ _ _ h

/-- C10 as stated is false: a fresh record's `last_io` is the epoch, but when
the first tick's wall-clock time is smaller than the configured `idle_time`
(here `now = 50 < idle_time = 100`, zero delta), the idle duration does not
exceed `idle_time` and no spin-down happens on that tick. -/
theorem new_device_epoch_counterexample :
    (DeviceData.fromConfig ⟨100, 0, 0⟩).last_io = 0 ∧
    0 < (100 : Nat) ∧ Device.sectorsInc 0 (DeviceData.fromConfig ⟨100, 0, 0⟩).sectors = 0 ∧
    Device.tick 50 [] 0 (DeviceData.fromConfig ⟨100, 0, 0⟩) =
      some ⟨.Spinning, DeviceData.fromConfig ⟨100, 0, 0⟩, []⟩ := by decide

/-- C10 (amended): a fresh record's `last_io` is the Unix epoch, so for a
device with positive `idle_time` whose first evaluated tick shows a zero
delta, the idle duration equals the full wall-clock time since the epoch;
whenever that time has reached `idle_time` (true for any realistic clock),
the device leaves `Spinning` with a spin-down request on that very first
tick. -/
theorem new_device_epoch_spindown (cfg : DeviceConfig) (now : Nat)
    (nm : List Nat) (ns : Nat) (hidle : 0 < cfg.idle_time)
    (hquiet : Device.sectorsInc ns 0 = 0) (hnow : cfg.idle_time ≤ now) :
    (DeviceData.fromConfig cfg).last_io = 0 ∧
    ∃ r, Device.tick now nm ns (DeviceData.fromConfig cfg) = some r ∧
      r.data.state ≠ .Spinning ∧ Effect.spindownRequest nm ∈ r.effects := by
  refine ⟨rfl, ?_⟩
  obtain ⟨r, hr, hmem, hsy, hns⟩ :=
    tick_spinning_timeout now nm ns (DeviceData.fromConfig cfg) hidle rfl
      hquiet (Nat.zero_le now) (by simpa using hnow)
  refine ⟨r, hr, ?_, hmem⟩
  by_cases hf : cfg.sync_flags &&& SYNC_SPIN_DOWN = 0
  · have := (hns hf).1
    simp [this]
  · have := (hsy hf).1
    simp [this]

/-! ## Snapshot line parser (`src/utils.rs`, `src/iomonitor.rs`) -/

/-- Parse errors of the snapshot parser, modelling the `format!`-built
error values of `src/utils.rs` / `src/iomonitor.rs` as structured data:
`expectedToken` is the "Expected token" error, `invalidInteger tok` the
"Invalid integer: '<tok>'" error carrying the offending token. -/
inductive PError
  | expectedToken
  | invalidInteger (tok : List Nat)
  deriving DecidableEq, Repr

/-- The digit test of `parse_integer` and of the trailing-digit scan:
`c.wrapping_sub(b'0') <= 9` on a `u8`. -/
def isDigitByte (c : Nat) : Bool := u8WrappingSub c 48 ≤ 9

/-- Loop body of `parse_integer` (`src/utils.rs` lines 66-77), with the
original full token retained for the error message. -/
def parseIntegerGo (txt : List Nat) (res : Nat) : List Nat → Except PError Nat
  | [] => .ok res
  | c :: cs =>
    if isDigitByte c then
      parseIntegerGo txt (wrappingAdd (wrappingMul res 10) (u8WrappingSub c 48)) cs
    else .error (.invalidInteger txt)

/-- `parse_integer` from `src/utils.rs`: unbounded decimal digits
accumulated with wrapping `usize` arithmetic; any non-digit byte fails with
an error naming the token. -/
def parse_integer (txt : List Nat) : Except PError Nat := parseIntegerGo txt 0 txt

/-- `sys::is_scsi` from `src/sys.rs`: `matches!(major, 8 | 65..=71)`. -/
def is_scsi (major : Nat) : Prop := major = 8 ∨ (65 ≤ major ∧ major ≤ 71)

instance (major : Nat) : Decidable (is_scsi major) := by
  unfold is_scsi; infer_instance

/-- Tokenization in `parse_line` (`src/iomonitor.rs` line 119):
split on the space byte, keep only non-empty tokens. -/
def tokenize (line : List Nat) : List (List Nat) :=
  (line.splitOn 32).filter fun t => decide (0 < t.length)

/-- The trailing-decimal-digit count of the block identifier
(`src/iomonitor.rs` lines 129-133). -/
def countTrailingDigits (name : List Nat) : Nat :=
  (name.reverse.takeWhile isDigitByte).length

/-- Demand and discard `k` tokens (`k` consecutive `next_tok()?` calls whose
values are ignored). -/
def dropTokens : Nat → List (List Nat) → Except PError (List (List Nat))
  | 0, ts => .ok ts
  | _ + 1, [] => .error .expectedToken
  | k + 1, _ :: ts => dropTokens k ts

/-- The body of `parse_line` (`src/iomonitor.rs` lines 118-166) over the
token sequence, demanding tokens in source order: major (integer, device
class filter), minor, block identifier (whole-disk entries without trailing
digits are skipped), two skipped fields, sectors read (integer), three
skipped fields, sectors written (integer, wrapping-added), six skipped
fields, sectors discarded (integer, wrapping-added).  Returns the base
identifier with its trailing digits stripped and the combined sector
count. -/
def parseTokens (ts0 : List (List Nat)) : Except PError (Option (List Nat × Nat)) :=
  match ts0 with
  | [] => .error .expectedToken
  | t0 :: ts =>
    match parse_integer t0 with
    | .error e => .error e
    | .ok major =>
      if ¬ is_scsi major then .ok none
      else match ts with
      | [] => .error .expectedToken
      | _minor :: ts =>
        match ts with
        | [] => .error .expectedToken
        | name :: ts =>
          if countTrailingDigits name = 0 then .ok none
          else match dropTokens 2 ts with
          | .error e => .error e
          | .ok ts =>
            match ts with
            | [] => .error .expectedToken
            | t5 :: ts =>
              match parse_integer t5 with
              | .error e => .error e
              | .ok s0 =>
                match dropTokens 3 ts with
                | .error e => .error e
                | .ok ts =>
                  match ts with
                  | [] => .error .expectedToken
                  | t9 :: ts =>
                    match parse_integer t9 with
                    | .error e => .error e
                    | .ok s1 =>
                      match dropTokens 6 ts with
                      | .error e => .error e
                      | .ok ts =>
                        match ts with
                        | [] => .error .expectedToken
                        | t16 :: _ =>
                          match parse_integer t16 with
                          | .error e => .error e
                          | .ok s2 =>
                            .ok (some
                              (name.take (name.length - countTrailingDigits name),
                               wrappingAdd (wrappingAdd s0 s1) s2))

/-- `parse_line` from `src/iomonitor.rs`. -/
def parse_line (line : List Nat) : Except PError (Option (List Nat × Nat)) :=
  parseTokens (tokenize line)

instance {ε α : Type} [DecidableEq ε] [DecidableEq α] :
    DecidableEq (Except ε α) := fun a b =>
  match a, b with
  | .ok x, .ok y =>
    if h : x = y then isTrue (by rw [h]) else isFalse (fun hc => h (Except.ok.inj hc))
  | .error x, .error y =>
    if h : x = y then isTrue (by rw [h]) else isFalse (fun hc => h (Except.error.inj hc))
  | .ok _, .error _ => isFalse fun hc => Except.noConfusion hc
  | .error _, .ok _ => isFalse fun hc => Except.noConfusion hc

example :
    parse_line [56, 32, 48, 32, 115, 100, 97, 49, 32, 49, 32, 50, 32, 51, 32,
      52, 32, 53, 32, 54, 32, 55, 32, 56, 32, 57, 32, 49, 48, 32, 49, 49, 32,
      49, 50, 32, 49, 51, 32, 49, 52] =
    .ok (some ([115, 100, 97], 3 + 7 + 14)) := by decide

example : parse_line [52, 32, 48, 32, 120] = .ok none := by decide

example : parse_line [56, 32, 48, 32, 115, 100, 97] = .ok none := by decide

example : parse_line [56, 32, 48, 32, 115, 100, 97, 49, 32, 120] =
    .error .expectedToken := by decide

example :
    parse_line [56, 32, 48, 32, 115, 100, 97, 49, 32, 49, 32, 50, 32, 120] =
    .error (.invalidInteger [120]) := by decide

/-! ## Activity ledger (`src/iomonitor.rs`) -/

/-- One slot of `IOMonitor::state`: the tuple
`(OsString, usize, T)` of device name, per-tick sector accumulator, and
payload. -/
structure Entry (T : Type) where
  name : List Nat
  sectors : Nat
  value : T
  deriving DecidableEq, Repr

/-- One linear scan of `get_entry_idx`: try indices `i, i+1, ...` for
`count` steps, in bounds. -/
def scanFor {T : Type} (st : List (Entry T)) (n : List Nat) :
    Nat → Nat → Option Nat
  | _, 0 => none
  | i, count + 1 =>
    match st.get? i with
    | some e => if e.name = n then some i else scanFor st n (i + 1) count
    | none => none

/-- `get_entry_idx` from `src/iomonitor.rs` lines 34-46: scan from the hint
to the end, then wrap around from the start up to the hint. -/
def get_entry_idx {T : Type} (st : List (Entry T)) (n : List Nat)
    (hint : Nat) : Option Nat :=
  match scanFor st n hint (st.length - hint) with
  | some i => some i
  | none => scanFor st n 0 hint

/-- Reset every record's per-tick accumulator to zero
(`src/iomonitor.rs` lines 88-90). -/
def resetAcc {T : Type} (st : List (Entry T)) : List (Entry T) :=
  st.map fun e => { e with sectors := 0 }

/-- Wrapping-add `s` into the accumulator of the entry at index `i`
(`src/iomonitor.rs` lines 100-101). -/
def updateAccAt {T : Type} (st : List (Entry T)) (i : Nat) (s : Nat) :
    List (Entry T) :=
  match st.get? i with
  | some e => st.set i { e with sectors := wrappingAdd e.sectors s }
  | none => st

/-- Processing of one parsed `(name, sectors)` pair
(`src/iomonitor.rs` lines 98-106): hinted lookup; on a hit, wrapping-add into
the accumulator and move the hint to the hit index; on a miss, insert a
record built by the factory at `min(len, hint + 1)` and point the hint at
it. -/
def process_pair {T : Type} (create : List Nat → T) (st : List (Entry T))
    (hint : Nat) (p : List Nat × Nat) : List (Entry T) × Nat :=
  match get_entry_idx st p.1 hint with
  | some i => (updateAccAt st i p.2, i)
  | none =>
    let j := min st.length (hint + 1)
    (st.insertIdx j ⟨p.1, p.2, create p.1⟩, j)

/-- Fold `process_pair` over all parsed pairs of one refresh. -/
def process_pairs {T : Type} (create : List Nat → T) :
    List (Entry T) → Nat → List (List Nat × Nat) → List (Entry T) × Nat
  | st, hint, [] => (st, hint)
  | st, hint, p :: ps =>
    let r := process_pair create st hint p
    process_pairs create r.1 r.2 ps

/-- Errors surfaced by `IOMonitor::check_activity`: a snapshot-source read
failure, or a parse failure wrapped (by `with_context`) in the
"Parsing line '<line>'" context that names the raw offending line. -/
inductive RefreshError
  | ioFailure
  | parseFailure (line : List Nat) (e : PError)
  deriving DecidableEq, Repr

/-- Parsing of all snapshot lines in order, keeping the accepted
`(name, sectors)` pairs and aborting on the first failing line with an error
naming that raw line (`src/iomonitor.rs` lines 94-97). -/
def parseLines : List (List Nat) → Except RefreshError (List (List Nat × Nat))
  | [] => .ok []
  | l :: ls =>
    match parse_line l with
    | .error e => .error (.parseFailure l e)
    | .ok none => parseLines ls
    | .ok (some p) =>
      match parseLines ls with
      | .error e => .error e
      | .ok ps => .ok (p :: ps)

/-- The diff phase of `IOMonitor::check_activity`
(`src/iomonitor.rs` lines 83-108): reset all accumulators, then process every
parsed line with the hinted search starting at hint `0`.  `linesRes = none`
models an I/O failure of the snapshot source (`self.file.read_lines()?`);
any parse failure aborts with an error naming the raw line.  The per-record
`update_cb` callbacks (lines 110-112) run only after this phase succeeds and
are modelled separately (`tickAll`). -/
def check_activity {T : Type} (create : List Nat → T) (st : List (Entry T))
    (linesRes : Option (List (List Nat))) :
    Except RefreshError (List (Entry T)) :=
  match linesRes with
  | none => .error .ioFailure
  | some lines =>
    match parseLines lines with
    | .error e => .error e
    | .ok pairs => .ok (process_pairs create (resetAcc st) 0 pairs).1

/-- The `update_cb` phase of one `App::tick` (`src/main.rs` lines 271-277):
run `Device::tick` on every record in ledger order, collecting the issued
side effects; `none` models a panic inside a callback. -/
def tickAll (now : Nat) :
    List (Entry DeviceData) → Option (List (Entry DeviceData) × List Effect)
  | [] => some ([], [])
  | e :: es =>
    match Device.tick now e.name e.sectors e.value with
    | none => none
    | some r =>
      match tickAll now es with
      | none => none
      | some (es', effs) =>
        some ({ e with value := r.data } :: es', r.effects ++ effs)

/-- One full refresh cycle as driven by `App::tick`
(`src/main.rs` lines 265-287): the `check_activity` diff phase, whose error
aborts the cycle before any callback runs, followed by the per-record
`Device::tick` callbacks; newly discovered devices get a record built from
the default configuration. -/
def refresh (cfg : DeviceConfig) (st : List (Entry DeviceData))
    (linesRes : Option (List (List Nat))) (now : Nat) :
    Except RefreshError (Option (List (Entry DeviceData) × List Effect)) :=
  match check_activity (fun _ => DeviceData.fromConfig cfg) st linesRes with
  | .error e => .error e
  | .ok st' => .ok (tickAll now st')

/-! ## Parser lemmas -/

lemma parseIntegerGo_ok (txt : List Nat) :
    ∀ cs res v, parseIntegerGo txt res cs = .ok v →
      ∀ c ∈ cs, isDigitByte c = true := by
  intro cs
  induction cs with
  | nil => intro res v _ c hc; simp at hc
  | cons a cs ih =>
    intro res v h c hc
    unfold parseIntegerGo at h
    by_cases ha : isDigitByte a = true
    · rcases List.mem_cons.mp hc with rfl | hc'
      · exact ha
      · exact ih _ v (by simpa [ha] using h) c hc'
    · simp [ha] at h

lemma parseIntegerGo_err (txt : List Nat) :
    ∀ cs res e, parseIntegerGo txt res cs = .error e →
      e = .invalidInteger txt ∧ ∃ c ∈ cs, isDigitByte c = false := by
  intro cs
  induction cs with
  | nil => intro res e h; simp [parseIntegerGo] at h
  | cons a cs ih =>
    intro res e h
    unfold parseIntegerGo at h
    by_cases ha : isDigitByte a = true
    · obtain ⟨he, c, hc, hcd⟩ := ih _ e (by simpa [ha] using h)
      exact ⟨he, c, List.mem_cons_of_mem a hc, hcd⟩
    · simp [ha] at h
      exact ⟨h.symm, a, List.mem_cons_self a cs, by simpa using ha⟩

lemma parse_integer_ok {txt : List Nat} {v : Nat}
    (h : parse_integer txt = .ok v) : ∀ c ∈ txt, isDigitByte c = true :=
  parseIntegerGo_ok txt txt 0 v h

lemma parse_integer_err {txt : List Nat} {e : PError}
    (h : parse_integer txt = .error e) :
    e = .invalidInteger txt ∧ ∃ c ∈ txt, isDigitByte c = false :=
  parseIntegerGo_err txt txt 0 e h

lemma dropTokens_ok :
    ∀ (k : Nat) (ts ts' : List (List Nat)), dropTokens k ts = .ok ts' →
      ts' = ts.drop k ∧ k ≤ ts.length := by
  intro k
  induction k with
  | zero => intro ts ts' h; simp [dropTokens] at h; simp [h.symm]
  | succ k ih =>
    intro ts ts' h
    cases ts with
    | nil => simp [dropTokens] at h
    | cons a ts =>
      obtain ⟨h1, h2⟩ := ih ts ts' (by simpa [dropTokens] using h)
      exact ⟨h1, by simpa using Nat.succ_le_succ h2⟩

lemma dropTokens_err :
    ∀ (k : Nat) (ts : List (List Nat)) (e : PError),
      dropTokens k ts = .error e → e = .expectedToken := by
  intro k
  induction k with
  | zero => intro ts e h; simp [dropTokens] at h
  | succ k ih =>
    intro ts e h
    cases ts with
    | nil => simp [dropTokens] at h; exact h.symm
    | cons a ts => exact ih ts e (by simpa [dropTokens] using h)

lemma wrappingAdd_lt (a b : Nat) : wrappingAdd a b < USIZE :=
  Nat.mod_lt _ (by norm_num [USIZE])

lemma parseTokens_inv (ts : List (List Nat)) :
    (∀ e, parseTokens ts = .error e →
       e = .expectedToken ∨
         ∃ t ∈ ts, e = .invalidInteger t ∧ ∃ c ∈ t, isDigitByte c = false)
  ∧ (∀ p, parseTokens ts = .ok (some p) →
       17 ≤ ts.length ∧ p.2 < USIZE ∧
       ∀ t, (ts[0]? = some t ∨ ts[5]? = some t ∨ ts[9]? = some t ∨
             ts[16]? = some t) →
         ∀ c ∈ t, isDigitByte c = true) := by
  cases ts with
  | nil =>
    constructor
    · intro e h; simp [parseTokens] at h; exact Or.inl h.symm
    · intro p h; simp [parseTokens] at h
  | cons t0 ts1 =>
    cases h0 : parse_integer t0 with
    | error e0 =>
      have hv : parseTokens (t0 :: ts1) = .error e0 := by
        simp [parseTokens, h0]
      constructor
      · intro e h
        rw [hv] at h
        obtain rfl : e0 = e := by simpa using h
        obtain ⟨he, c, hc, hcd⟩ := parse_integer_err h0
        exact Or.inr ⟨t0, List.mem_cons_self _ _, he, c, hc, hcd⟩
      · intro p h; rw [hv] at h; simp at h
    | ok major =>
      by_cases hs : is_scsi major
      · cases ts1 with
        | nil =>
          have hv : parseTokens (t0 :: []) = .error .expectedToken := by
            simp [parseTokens, h0, hs]
          constructor
          · intro e h; rw [hv] at h
            exact Or.inl (Except.error.inj h).symm
          · intro p h; rw [hv] at h; simp at h
        | cons t1 ts2 =>
          cases ts2 with
          | nil =>
            have hv : parseTokens (t0 :: t1 :: []) = .error .expectedToken := by
              simp [parseTokens, h0, hs]
            constructor
            · intro e h; rw [hv] at h
              exact Or.inl (Except.error.inj h).symm
            · intro p h; rw [hv] at h; simp at h
          | cons nm ts3 =>
            by_cases hnd : countTrailingDigits nm = 0
            · have hv : parseTokens (t0 :: t1 :: nm :: ts3) = .ok none := by
                simp [parseTokens, h0, hs, hnd]
              constructor
              · intro e h; rw [hv] at h; simp at h
              · intro p h; rw [hv] at h; simp at h
            · cases h2 : dropTokens 2 ts3 with
              | error e2 =>
                have hv : parseTokens (t0 :: t1 :: nm :: ts3) = .error e2 := by
                  simp [parseTokens, h0, hs, hnd, h2]
                obtain rfl := dropTokens_err 2 ts3 e2 h2
                constructor
                · intro e h; rw [hv] at h
                  exact Or.inl (Except.error.inj h).symm
                · intro p h; rw [hv] at h; simp at h
              | ok ts4 =>
                obtain ⟨hd2, hl2⟩ := dropTokens_ok 2 ts3 ts4 h2
                cases ts4 with
                | nil =>
                  have hv : parseTokens (t0 :: t1 :: nm :: ts3) =
                      .error .expectedToken := by
                    simp [parseTokens, h0, hs, hnd, h2]
                  constructor
                  · intro e h; rw [hv] at h
                    exact Or.inl (Except.error.inj h).symm
                  · intro p h; rw [hv] at h; simp at h
                | cons t5 ts5 =>
                  have ht5m : t5 ∈ ts3 :=
                    List.drop_subset 2 ts3 (hd2 ▸ List.mem_cons_self t5 ts5)
                  cases h5 : parse_integer t5 with
                  | error e5 =>
                    have hv : parseTokens (t0 :: t1 :: nm :: ts3) = .error e5 := by
                      simp [parseTokens, h0, hs, hnd, h2, h5]
                    constructor
                    · intro e h; rw [hv] at h
                      obtain rfl : e5 = e := by simpa using h
                      obtain ⟨he, c, hc, hcd⟩ := parse_integer_err h5
                      exact Or.inr ⟨t5, by simp [ht5m], he, c, hc, hcd⟩
                    · intro p h; rw [hv] at h; simp at h
                  | ok s0 =>
                    cases h3 : dropTokens 3 ts5 with
                    | error e3 =>
                      have hv : parseTokens (t0 :: t1 :: nm :: ts3) = .error e3 := by
                        simp [parseTokens, h0, hs, hnd, h2, h5, h3]
                      obtain rfl := dropTokens_err 3 ts5 e3 h3
                      constructor
                      · intro e h; rw [hv] at h
                        exact Or.inl (Except.error.inj h).symm
                      · intro p h; rw [hv] at h; simp at h
                    | ok ts6 =>
                      obtain ⟨hd3, hl3⟩ := dropTokens_ok 3 ts5 ts6 h3
                      cases ts6 with
                      | nil =>
                        have hv : parseTokens (t0 :: t1 :: nm :: ts3) =
                            .error .expectedToken := by
                          simp [parseTokens, h0, hs, hnd, h2, h5, h3]
                        constructor
                        · intro e h; rw [hv] at h
                          exact Or.inl (Except.error.inj h).symm
                        · intro p h; rw [hv] at h; simp at h
                      | cons t9 ts7 =>
                        have ht9m : t9 ∈ ts3 := by
                          have h1 : t9 ∈ ts5 :=
                            List.drop_subset 3 ts5 (hd3 ▸ List.mem_cons_self t9 ts7)
                          have h2' : t9 ∈ t5 :: ts5 := List.mem_cons_of_mem _ h1
                          exact List.drop_subset 2 ts3 (hd2 ▸ h2')
                        cases h9 : parse_integer t9 with
                        | error e9 =>
                          have hv : parseTokens (t0 :: t1 :: nm :: ts3) =
                              .error e9 := by
                            simp [parseTokens, h0, hs, hnd, h2, h5, h3, h9]
                          constructor
                          · intro e h; rw [hv] at h
                            obtain rfl : e9 = e := by simpa using h
                            obtain ⟨he, c, hc, hcd⟩ := parse_integer_err h9
                            exact Or.inr ⟨t9, by simp [ht9m], he, c, hc, hcd⟩
                          · intro p h; rw [hv] at h; simp at h
                        | ok s1 =>
                          cases h6 : dropTokens 6 ts7 with
                          | error e6 =>
                            have hv : parseTokens (t0 :: t1 :: nm :: ts3) =
                                .error e6 := by
                              simp [parseTokens, h0, hs, hnd, h2, h5, h3, h9, h6]
                            obtain rfl := dropTokens_err 6 ts7 e6 h6
                            constructor
                            · intro e h; rw [hv] at h
                              exact Or.inl (Except.error.inj h).symm
                            · intro p h; rw [hv] at h; simp at h
                          | ok ts8 =>
                            obtain ⟨hd6, hl6⟩ := dropTokens_ok 6 ts7 ts8 h6
                            cases ts8 with
                            | nil =>
                              have hv : parseTokens (t0 :: t1 :: nm :: ts3) =
                                  .error .expectedToken := by
                                simp [parseTokens, h0, hs, hnd, h2, h5, h3, h9, h6]
                              constructor
                              · intro e h; rw [hv] at h
                                exact Or.inl (Except.error.inj h).symm
                              · intro p h; rw [hv] at h; simp at h
                            | cons t16 ts9 =>
                              have ht16m : t16 ∈ ts3 := by
                                have h1 : t16 ∈ ts7 :=
                                  List.drop_subset 6 ts7
                                    (hd6 ▸ List.mem_cons_self t16 ts9)
                                have h2' : t16 ∈ ts5 :=
                                  List.drop_subset 3 ts5
                                    (hd3 ▸ List.mem_cons_of_mem t9 h1)
                                exact List.drop_subset 2 ts3
                                  (hd2 ▸ List.mem_cons_of_mem t5 h2')
                              cases h16 : parse_integer t16 with
                              | error e16 =>
                                have hv : parseTokens (t0 :: t1 :: nm :: ts3) =
                                    .error e16 := by
                                  simp [parseTokens, h0, hs, hnd, h2, h5, h3, h9,
                                    h6, h16]
                                constructor
                                · intro e h; rw [hv] at h
                                  obtain rfl : e16 = e := by simpa using h
                                  obtain ⟨he, c, hc, hcd⟩ := parse_integer_err h16
                                  exact Or.inr ⟨t16, by simp [ht16m], he, c, hc, hcd⟩
                                · intro p h; rw [hv] at h; simp at h
                              | ok s2 =>
                                have hv : parseTokens (t0 :: t1 :: nm :: ts3) =
                                    .ok (some
                                      (nm.take (nm.length - countTrailingDigits nm),
                                       wrappingAdd (wrappingAdd s0 s1) s2)) := by
                                  simp [parseTokens, h0, hs, hnd, h2, h5, h3, h9,
                                    h6, h16]
                                constructor
                                · intro e h; rw [hv] at h; simp at h
                                · intro p h
                                  rw [hv] at h
                                  have hp : (nm.take
                                      (nm.length - countTrailingDigits nm),
                                      wrappingAdd (wrappingAdd s0 s1) s2) = p := by
                                    simpa using h
                                  have hlen3 : ts3.length = 3 + ts5.length := by
                                    have := congrArg List.length hd2
                                    simp at this
                                    omega
                                  have hlen5 : ts5.length = 4 + ts7.length := by
                                    have := congrArg List.length hd3
                                    simp at this
                                    omega
                                  have hlen7 : ts7.length = 7 + ts9.length := by
                                    have := congrArg List.length hd6
                                    simp at this
                                    omega
                                  refine ⟨by simp; omega, ?_, ?_⟩
                                  · rw [← hp]; exact wrappingAdd_lt _ _
                                  · have e5q : ts3[2]? = some t5 := by
                                      rw [show (2 : Nat) = 2 + 0 from rfl,
                                        ← List.getElem?_drop, ← hd2]
                                      simp
                                    have e9q : ts3[6]? = some t9 := by
                                      rw [show (6 : Nat) = 2 + 4 from rfl,
                                        ← List.getElem?_drop, ← hd2]
                                      simp only [List.getElem?_cons_succ]
                                      rw [show (3 : Nat) = 3 + 0 from rfl,
                                        ← List.getElem?_drop, ← hd3]
                                      simp
                                    have e16q : ts3[13]? = some t16 := by
                                      rw [show (13 : Nat) = 2 + 11 from rfl,
                                        ← List.getElem?_drop, ← hd2]
                                      simp only [List.getElem?_cons_succ]
                                      rw [show (10 : Nat) = 3 + 7 from rfl,
                                        ← List.getElem?_drop, ← hd3]
                                      simp only [List.getElem?_cons_succ]
                                      rw [show (6 : Nat) = 6 + 0 from rfl,
                                        ← List.getElem?_drop, ← hd6]
                                      simp
                                    intro t ht c hc
                                    rcases ht with ht | ht | ht | ht
                                    · have hte : t0 = t := by simpa using ht
                                      subst hte
                                      exact parse_integer_ok h0 c hc
                                    · have hte : t5 = t := by
                                        simpa [List.getElem?_cons_succ, e5q] using ht
                                      subst hte
                                      exact parse_integer_ok h5 c hc
                                    · have hte : t9 = t := by
                                        simpa [List.getElem?_cons_succ, e9q] using ht
                                      subst hte
                                      exact parse_integer_ok h9 c hc
                                    · have hte : t16 = t := by
                                        simpa [List.getElem?_cons_succ, e16q] using ht
                                      subst hte
                                      exact parse_integer_ok h16 c hc
      · have hv : parseTokens (t0 :: ts1) = .ok none := by
          simp [parseTokens, h0, hs]
        constructor
        · intro e h; rw [hv] at h; simp at h
        · intro p h; rw [hv] at h; simp at h


theorem new_device_epoch_spindown_witness :
    (DeviceData.fromConfig ⟨60, 0, 0⟩).last_io = 0 ∧
    ∃ r, Device.tick 1000000 [] 0 (DeviceData.fromConfig ⟨60, 0, 0⟩) = some r ∧
      r.data.state ≠ .Spinning ∧ Effect.spindownRequest [] ∈ r.effects :=
  new_device_epoch_spindown ⟨60, 0, 0⟩ 1000000 [] 0 (by decide) (by decide)
    (by decide)

lemma parseLines_err_mem :
    ∀ (pre : List (List Nat)) (line : List Nat) (post : List (List Nat))
      (e : PError), parse_line line = .error e →
      (∀ l ∈ pre, ∀ e', parse_line l ≠ .error e') →
      parseLines (pre ++ line :: post) = .error (.parseFailure line e) := by
  intro pre
  induction pre with
  | nil =>
    intro line post e he _
    simp only [List.nil_append, parseLines, he]
  | cons l pre ih =>
    intro line post e he hok
    have hrest := ih line post e he fun l' hl' => hok l' (List.mem_cons_of_mem l hl')
    have hlok : ∀ e', parse_line l ≠ .error e' := hok l (List.mem_cons_self l pre)
    cases hl : parse_line l with
    | error e' => exact absurd hl (hlok e')
    | ok r =>
      cases r with
      | none =>
        simp only [List.cons_append, List.append_eq, parseLines, hl]
        exact hrest
      | some p =>
        simp only [List.cons_append, List.append_eq, parseLines, hl]
        rw [hrest]

lemma parseLines_exists_err :
    ∀ (lines : List (List Nat)),
      (∃ l ∈ lines, ∃ e, parse_line l = .error e) →
      ∃ l e, l ∈ lines ∧ parse_line l = .error e ∧
        parseLines lines = .error (.parseFailure l e) := by
  intro lines
  induction lines with
  | nil => intro h; simp at h
  | cons l ls ih =>
    intro h
    cases hl : parse_line l with
    | error e =>
      refine ⟨l, e, List.mem_cons_self l ls, hl, ?_⟩
      simp only [parseLines, hl]
    | ok r =>
      have hin : ∃ l' ∈ ls, ∃ e, parse_line l' = .error e := by
        obtain ⟨l', hl', e', he'⟩ := h
        rcases List.mem_cons.mp hl' with rfl | hmem
        · rw [hl] at he'; exact absurd he' (by simp)
        · exact ⟨l', hmem, e', he'⟩
      obtain ⟨l', e', hmem, he', hp⟩ := ih hin
      refine ⟨l', e', List.mem_cons_of_mem l hmem, he', ?_⟩
      cases r with
      | none => simp only [parseLines, hl]; exact hp
      | some p => simp only [parseLines, hl]; rw [hp]

/-- C4: a snapshot-source I/O failure, or a parse failure of any snapshot
line, aborts the whole refresh with the error surfaced to the caller
(`App::tick` propagates it with `?`): the cycle produces an `error` result,
so no per-record `on_tick` callback runs and no state-machine evaluation or
side effect happens for that cycle (in the model, `tickAll` is reached only
on the `ok` path of `check_activity`). -/
theorem refresh_aborts_on_failure (cfg : DeviceConfig)
    (st : List (Entry DeviceData)) (now : Nat) :
    refresh cfg st none now = .error .ioFailure ∧
    ∀ lines, (∃ l ∈ lines, ∃ e, parse_line l = .error e) →
      ∃ l e, l ∈ lines ∧ parse_line l = .error e ∧
        refresh cfg st (some lines) now = .error (.parseFailure l e) := by
  constructor
  · rfl
  · intro lines h
    obtain ⟨l, e, hmem, he, hp⟩ := parseLines_exists_err lines h
    refine ⟨l, e, hmem, he, ?_⟩
    simp only [refresh, check_activity, hp]

theorem refresh_aborts_on_failure_witness :
    refresh ⟨0, 0, 0⟩ [] none 0 = .error .ioFailure ∧
    ∃ l e, l ∈ [[56, 32, 48, 32, 115, 100, 97, 49, 32, 120]] ∧
      parse_line l = .error e ∧
      refresh ⟨0, 0, 0⟩ [] (some [[56, 32, 48, 32, 115, 100, 97, 49, 32, 120]]) 0 =
        .error (.parseFailure l e) :=
  ⟨(refresh_aborts_on_failure ⟨0, 0, 0⟩ [] 0).1,
   (refresh_aborts_on_failure ⟨0, 0, 0⟩ [] 0).2
     [[56, 32, 48, 32, 115, 100, 97, 49, 32, 120]]
     ⟨[56, 32, 48, 32, 115, 100, 97, 49, 32, 120], by simp, .expectedToken,
       by decide⟩⟩

/-- C6: the snapshot line parser can only fail because a demanded token was
missing (`expectedToken`) or because a token in a demanded integer field
contains a non-digit byte (`invalidInteger` carrying that token); a line
that parses to a pair has all 17 tokens, with the demanded integer fields
(positions 0, 5, 9, 16) all-digit; and a parse failure aborts the whole
refresh with an error that names the raw offending line. -/
theorem parse_failure_modes_and_abort (line : List Nat) :
    (∀ e, parse_line line = .error e →
        e = .expectedToken ∨
          ∃ t ∈ tokenize line, e = .invalidInteger t ∧
            ∃ c ∈ t, isDigitByte c = false)
  ∧ (∀ p, parse_line line = .ok (some p) →
        17 ≤ (tokenize line).length ∧
        ∀ t, ((tokenize line)[0]? = some t ∨ (tokenize line)[5]? = some t ∨
              (tokenize line)[9]? = some t ∨ (tokenize line)[16]? = some t) →
          ∀ c ∈ t, isDigitByte c = true)
  ∧ (∀ e (cfg : DeviceConfig) (st : List (Entry DeviceData)) (now : Nat)
        (pre post : List (List Nat)), parse_line line = .error e →
        (∀ l ∈ pre, ∀ e', parse_line l ≠ .error e') →
        refresh cfg st (some (pre ++ line :: post)) now =
          .error (.parseFailure line e)) := by
  refine ⟨fun e h => (parseTokens_inv (tokenize line)).1 e h,
    fun p h => ?_, fun e cfg st now pre post he hok => ?_⟩
  · obtain ⟨h1, _, h3⟩ := (parseTokens_inv (tokenize line)).2 p h
    exact ⟨h1, h3⟩
  · have hp := parseLines_err_mem pre line post e he hok
    simp only [refresh, check_activity, hp]

theorem parse_failure_modes_and_abort_witness :
    ((PError.invalidInteger [120] = .expectedToken ∨
      ∃ t ∈ tokenize [56, 32, 48, 32, 115, 100, 97, 49, 32, 49, 32, 50, 32, 120],
        PError.invalidInteger [120] = .invalidInteger t ∧
          ∃ c ∈ t, isDigitByte c = false)) ∧
    refresh ⟨0, 0, 0⟩ []
        (some [[56, 32, 48, 32, 115, 100, 97, 49, 32, 49, 32, 50, 32, 120]]) 0 =
      .error (.parseFailure
        [56, 32, 48, 32, 115, 100, 97, 49, 32, 49, 32, 50, 32, 120]
        (.invalidInteger [120])) :=
  ⟨(parse_failure_modes_and_abort
      [56, 32, 48, 32, 115, 100, 97, 49, 32, 49, 32, 50, 32, 120]).1
      (.invalidInteger [120]) (by decide),
   (parse_failure_modes_and_abort
      [56, 32, 48, 32, 115, 100, 97, 49, 32, 49, 32, 50, 32, 120]).2.2
      (.invalidInteger [120]) ⟨0, 0, 0⟩ [] 0 [] [] (by decide) (by simp)⟩

/-! ## Hinted lookup lemmas -/

lemma scanFor_eq_some {T : Type} (st : List (Entry T)) (n : List Nat) :
    ∀ count i j, scanFor st n i count = some j →
      i ≤ j ∧ j < i + count ∧
        ∃ h : j < st.length, (st.get ⟨j, h⟩).name = n := by
  intro count
  induction count with
  | zero => intro i j h; simp [scanFor] at h
  | succ count ih =>
    intro i j h
    unfold scanFor at h
    cases hg : st.get? i with
    | none => rw [hg] at h; simp at h
    | some e =>
      rw [hg] at h
      by_cases he : e.name = n
      · simp only [he, if_true, ite_true] at h
        obtain rfl : i = j := by simpa using h
        obtain ⟨hlt, hget⟩ := List.get?_eq_some.mp hg
        exact ⟨Nat.le_refl i, by omega, hlt, by rw [hget]; exact he⟩
      · simp only [he, if_false, ite_false] at h
        obtain ⟨h1, h2, h3⟩ := ih (i + 1) j h
        exact ⟨by omega, by omega, h3⟩

lemma scanFor_eq_none {T : Type} (st : List (Entry T)) (n : List Nat) :
    ∀ count i, scanFor st n i count = none →
      ∀ j, i ≤ j → j < i + count → j < st.length →
        ∀ h : j < st.length, (st.get ⟨j, h⟩).name ≠ n := by
  intro count
  induction count with
  | zero => intro i _ j h1 h2 _; omega
  | succ count ih =>
    intro i h j hij hjc hjl hlt
    unfold scanFor at h
    cases hg : st.get? i with
    | none =>
      have := List.get?_eq_none.mp (by rw [← hg])
      omega
    | some e =>
      rw [hg] at h
      by_cases he : e.name = n
      · simp [he] at h
      · simp only [he, if_false, ite_false] at h
        rcases Nat.eq_or_lt_of_le hij with rfl | hlt'
        · obtain ⟨_, hget⟩ := List.get?_eq_some.mp hg
          rw [hget]; exact he
        · exact ih (i + 1) h j hlt' (by omega) hjl hlt

lemma get_entry_idx_some {T : Type} (st : List (Entry T)) (n : List Nat)
    (hint i : Nat) (h : get_entry_idx st n hint = some i) :
    ∃ hlt : i < st.length, (st.get ⟨i, hlt⟩).name = n := by
  unfold get_entry_idx at h
  cases h1 : scanFor st n hint (st.length - hint) with
  | some j =>
    rw [h1] at h
    obtain rfl : j = i := by simpa using h
    exact (scanFor_eq_some st n _ hint _ h1).2.2
  | none =>
    rw [h1] at h
    exact (scanFor_eq_some st n hint 0 i h).2.2

lemma get_entry_idx_none {T : Type} (st : List (Entry T)) (n : List Nat)
    (hint : Nat) (hhint : hint ≤ st.length)
    (h : get_entry_idx st n hint = none) :
    ∀ e ∈ st, e.name ≠ n := by
  unfold get_entry_idx at h
  cases h1 : scanFor st n hint (st.length - hint) with
  | some j => rw [h1] at h; simp at h
  | none =>
    rw [h1] at h
    intro e he hen
    obtain ⟨j, hget⟩ := List.mem_iff_get.mp he
    rw [← hget] at hen
    by_cases hj : (j : Nat) < hint
    · exact scanFor_eq_none st n hint 0 h j (Nat.zero_le _) (by omega) j.isLt
        j.isLt hen
    · exact scanFor_eq_none st n (st.length - hint) hint h1 j (by omega)
        (by omega) j.isLt j.isLt hen

/-- C7: with a hint not exceeding the ledger length, the wrapping hinted
search of `get_entry_idx` finds an index holding the key iff an entry with
that key exists anywhere in the ledger; on a hit, `check_activity`
wrapping-adds the parsed sectors into that entry's per-tick accumulator and
the hit index becomes the new hint; on a miss, a factory-built record is
inserted at position `min(hint + 1, length)`, which becomes the new hint. -/
theorem hinted_lookup_and_insert {T : Type} (create : List Nat → T)
    (st : List (Entry T)) (n : List Nat) (s : Nat) (hint : Nat)
    (hhint : hint ≤ st.length) :
    ((∃ i, get_entry_idx st n hint = some i) ↔ ∃ e ∈ st, e.name = n)
  ∧ (∀ i, get_entry_idx st n hint = some i →
        ∃ hlt : i < st.length, (st.get ⟨i, hlt⟩).name = n)
  ∧ (∀ i, get_entry_idx st n hint = some i →
        ∀ e, st.get? i = some e →
          process_pair create st hint (n, s) =
            (st.set i { e with sectors := wrappingAdd e.sectors s }, i))
  ∧ (get_entry_idx st n hint = none →
        process_pair create st hint (n, s) =
          (st.insertIdx (min (hint + 1) st.length) ⟨n, s, create n⟩,
           min (hint + 1) st.length)) := by
  refine ⟨⟨?_, ?_⟩, fun i h => get_entry_idx_some st n hint i h,
    fun i h e hg => ?_, fun h => ?_⟩
  · rintro ⟨i, hi⟩
    obtain ⟨hlt, hname⟩ := get_entry_idx_some st n hint i hi
    exact ⟨st.get ⟨i, hlt⟩, List.get_mem st i hlt, hname⟩
  · rintro ⟨e, he, hen⟩
    cases hidx : get_entry_idx st n hint with
    | some i => exact ⟨i, rfl⟩
    | none => exact absurd hen (get_entry_idx_none st n hint hhint hidx e he)
  · simp only [process_pair, h, updateAccAt, hg]
  · simp only [process_pair, h]
    rw [Nat.min_comm]

theorem hinted_lookup_and_insert_witness :
    (∃ i, get_entry_idx [⟨[97], 2, (5 : Nat)⟩, ⟨[98], 0, 6⟩] [98] 0 = some i) ∧
    process_pair (fun _ => (7 : Nat)) [⟨[97], 2, 5⟩, ⟨[98], 0, 6⟩] 0 ([98], 3) =
      ([⟨[97], 2, 5⟩, ⟨[98], 3, 6⟩], 1) ∧
    process_pair (fun _ => (7 : Nat)) [⟨[97], 2, 5⟩, ⟨[98], 0, 6⟩] 0 ([99], 3) =
      ([⟨[97], 2, 5⟩, ⟨[99], 3, 7⟩, ⟨[98], 0, 6⟩], 1) := by
  have H := hinted_lookup_and_insert (fun _ => (7 : Nat))
    [⟨[97], 2, 5⟩, ⟨[98], 0, 6⟩] [98] 3 0 (by decide)
  have H' := hinted_lookup_and_insert (fun _ => (7 : Nat))
    [⟨[97], 2, 5⟩, ⟨[98], 0, 6⟩] [99] 3 0 (by decide)
  refine ⟨H.1.mpr ⟨⟨[98], 0, 6⟩, by decide, rfl⟩, ?_, ?_⟩
  · exact (H.2.2.1 1 (by decide) ⟨[98], 0, 6⟩ (by decide)).trans (by decide)
  · exact (H'.2.2.2 (by decide)).trans (by decide)

/-! ## Mount table and sync orchestration (`src/mounts.rs`, `src/sys.rs`,
`sync_block_device` in `src/main.rs`) -/

/-- Rust `slice::split_inclusive`: split after each separator byte, the
separator staying at the end of its chunk; a trailing chunk without
separator is kept, an empty input yields no chunks. -/
def splitInclusive (p : Nat → Bool) : List Nat → List (List Nat)
  | [] => []
  | c :: cs =>
    if p c then [c] :: splitInclusive p cs
    else
      match splitInclusive p cs with
      | [] => [[c]]
      | t :: ts => (c :: t) :: ts

/-- Errors of the sync orchestration, modelling the error values of
`src/mounts.rs` / `src/sys.rs`; `fsFailed mp` and `blockdevFailed` stand for
failures injected by the external `syncfs` / `sync_blockdev` capabilities. -/
inductive SyncError
  | expectedToken
  | emptyString
  | badTerminator (tok : List Nat)
  | fsFailed (mp : List Nat)
  | blockdevFailed
  deriving DecidableEq, Repr

/-- `sys::make_inplace_cstr` (`src/sys.rs` lines 15-32): the token's last
byte must be a space, tab or NUL; it is overwritten with NUL, so the C
string's content is the token without its final byte. -/
def make_inplace_cstr (tok : List Nat) : Except SyncError (List Nat) :=
  match tok.getLast? with
  | none => .error .emptyString
  | some last =>
    if last = 32 ∨ last = 9 ∨ last = 0 then .ok tok.dropLast
    else .error (.badTerminator tok)

/-- `mounts::parse_line` (`src/mounts.rs` lines 41-57): tokens are split
inclusively on space or NUL; a line whose source does not start with
`/dev/` followed by the device name is skipped; otherwise the second token
is the mount point, NUL-terminated in place. -/
def mounts_parse_line (line : List Nat) (devName : List Nat) :
    Except SyncError (Option (List Nat)) :=
  match splitInclusive (fun c => c == 32 || c == 0) line with
  | [] => .error .expectedToken
  | source :: rest =>
    if ¬ List.isPrefixOf [47, 100, 101, 118, 47] source then .ok none
    else if ¬ List.isPrefixOf devName (source.drop 5) then .ok none
    else
      match rest with
      | [] => .error .expectedToken
      | mp :: _ => (make_inplace_cstr mp).map some

/-- The mount points of a device in mount-table order, as `Mounts::for_dev`
would enumerate them if no callback failed. -/
def mountsOf (dev : List Nat) :
    List (List Nat) → Except SyncError (List (List Nat))
  | [] => .ok []
  | l :: ls =>
    match mounts_parse_line l dev with
    | .error e => .error e
    | .ok none => mountsOf dev ls
    | .ok (some mp) =>
      match mountsOf dev ls with
      | .error e => .error e
      | .ok mps => .ok (mp :: mps)

/-- `Mounts::for_dev` (`src/mounts.rs` lines 25-38) with the callback `f`
modelled by a success oracle: returns the mount points actually passed to
`f` (`syncfs` attempts, in order) and the result; `f(mount_point)?`
propagates the first failure immediately, stopping the loop. -/
def for_dev_go (dev : List Nat) (oracle : List Nat → Bool) :
    List (List Nat) → List (List Nat) × Except SyncError Unit
  | [] => ([], .ok ())
  | l :: ls =>
    match mounts_parse_line l dev with
    | .error e => ([], .error e)
    | .ok none => for_dev_go dev oracle ls
    | .ok (some mp) =>
      if oracle mp then
        let r := for_dev_go dev oracle ls
        (mp :: r.1, r.2)
      else ([mp], .error (.fsFailed mp))

/-- Observable outcome of one `sync_block_device` call: the mount points
whose filesystem flush was attempted, whether the device write-cache flush
was attempted, and the error logged to stderr (the call itself returns
nothing, so failures are non-fatal). -/
structure SyncRun where
  fsCalls : List (List Nat)
  blockdevAttempted : Bool
  loggedError : Option SyncError
  deriving DecidableEq, Repr

/-- `sync_block_device` (`src/main.rs` lines 153-173):
`mounts.for_dev(dev, syncfs).and_then(|_| sys::sync_blockdev(dev))`, with
any error written to stderr.  The `and_then` runs the device write-cache
flush only when every filesystem flush succeeded. -/
def sync_block_device (mountLines : List (List Nat)) (dev : List Nat)
    (oracle : List Nat → Bool) (blockdevOk : Bool) : SyncRun :=
  let r := for_dev_go dev oracle mountLines
  match r.2 with
  | .error e => ⟨r.1, false, some e⟩
  | .ok _ =>
    if blockdevOk then ⟨r.1, true, none⟩
    else ⟨r.1, true, some .blockdevFailed⟩

/-- C5 as stated is false: with two mounts of `sda`
(`/dev/sda1` on `/mnt/a`, `/dev/sda2` on `/mnt/b`) and the flush of
`/mnt/a` failing, `for_dev` aborts at the first failure — `/mnt/b` is never
flushed — and the `and_then` chaining skips the device write-cache flush;
only the surfacing/logging of the first error matches the claim. -/
theorem mount_sync_abort_counterexample :
    mountsOf [115, 100, 97]
        [[47, 100, 101, 118, 47, 115, 100, 97, 49, 32, 47, 109, 110, 116, 47,
          97, 32, 120],
         [47, 100, 101, 118, 47, 115, 100, 97, 50, 32, 47, 109, 110, 116, 47,
          98, 32, 120]] =
      .ok [[47, 109, 110, 116, 47, 97], [47, 109, 110, 116, 47, 98]] ∧
    sync_block_device
        [[47, 100, 101, 118, 47, 115, 100, 97, 49, 32, 47, 109, 110, 116, 47,
          97, 32, 120],
         [47, 100, 101, 118, 47, 115, 100, 97, 50, 32, 47, 109, 110, 116, 47,
          98, 32, 120]]
        [115, 100, 97] (fun mp => mp != [47, 109, 110, 116, 47, 97]) true =
      ⟨[[47, 109, 110, 116, 47, 97]], false,
        some (.fsFailed [47, 109, 110, 116, 47, 97])⟩ := by decide

lemma for_dev_go_spec (dev : List Nat) (oracle : List Nat → Bool) :
    ∀ (lines mps : List (List Nat)), mountsOf dev lines = .ok mps →
      ((∀ mp ∈ mps, oracle mp = true) →
         for_dev_go dev oracle lines = (mps, .ok ()))
    ∧ (∀ good bad rest, mps = good ++ bad :: rest →
         (∀ mp ∈ good, oracle mp = true) → oracle bad = false →
         for_dev_go dev oracle lines =
           (good ++ [bad], .error (.fsFailed bad))) := by
  intro lines
  induction lines with
  | nil =>
    intro mps h
    obtain rfl : ([] : List (List Nat)) = mps := by simpa [mountsOf] using h
    refine ⟨fun _ => rfl, fun good bad rest hsplit _ _ => ?_⟩
    exact absurd hsplit.symm (by simp)
  | cons l ls ih =>
    intro mps h
    cases hl : mounts_parse_line l dev with
    | error e => rw [mountsOf, hl] at h; exact absurd h (by simp)
    | ok r =>
      cases r with
      | none =>
        rw [mountsOf, hl] at h
        obtain ⟨h1, h2⟩ := ih mps h
        refine ⟨fun hall => ?_, fun good bad rest hsplit hgood hbad => ?_⟩
        · rw [for_dev_go, hl]; exact h1 hall
        · rw [for_dev_go, hl]; exact h2 good bad rest hsplit hgood hbad
      | some mp =>
        rw [mountsOf, hl] at h
        cases hms : mountsOf dev ls with
        | error e => rw [hms] at h; exact absurd h (by simp)
        | ok mps' =>
          rw [hms] at h
          obtain rfl : mp :: mps' = mps := by simpa using h
          obtain ⟨h1, h2⟩ := ih mps' hms
          refine ⟨fun hall => ?_, fun good bad rest hsplit hgood hbad => ?_⟩
          · have hmp : oracle mp = true := hall mp (List.mem_cons_self _ _)
            rw [for_dev_go, hl]
            simp only [hmp, if_true, ite_true]
            rw [h1 fun m hm => hall m (List.mem_cons_of_mem mp hm)]
          · cases good with
            | nil =>
              obtain ⟨rfl, rfl⟩ : mp = bad ∧ mps' = rest := by
                simpa using hsplit
              rw [for_dev_go, hl]
              simp [hbad]
            | cons g good' =>
              obtain ⟨rfl, hsplit'⟩ : mp = g ∧ mps' = good' ++ bad :: rest := by
                simpa using hsplit
              have hmp : oracle mp = true := hgood mp (List.mem_cons_self _ _)
              rw [for_dev_go, hl]
              simp only [hmp, if_true, ite_true]
              rw [h2 good' bad rest hsplit'
                (fun m hm => hgood m (List.mem_cons_of_mem mp hm)) hbad]
              simp

/-- C5 (amended): a failure to flush one mounted filesystem stops the
flushing of the device's remaining mounts, and the device write-cache flush
is skipped when a filesystem flush has failed; only when every filesystem
flush succeeds is the write-cache flush attempted.  The first error among
mounts is the one surfaced (then logged as non-fatal). -/
theorem mount_sync_stops_at_first_failure (lines : List (List Nat))
    (dev : List Nat) (oracle : List Nat → Bool) (bd : Bool)
    (mps : List (List Nat)) (h : mountsOf dev lines = .ok mps) :
    ((∀ mp ∈ mps, oracle mp = true) →
       (sync_block_device lines dev oracle bd).fsCalls = mps ∧
       (sync_block_device lines dev oracle bd).blockdevAttempted = true)
  ∧ (∀ good bad rest, mps = good ++ bad :: rest →
       (∀ mp ∈ good, oracle mp = true) → oracle bad = false →
       (sync_block_device lines dev oracle bd).fsCalls = good ++ [bad] ∧
       (sync_block_device lines dev oracle bd).blockdevAttempted = false ∧
       (sync_block_device lines dev oracle bd).loggedError =
         some (.fsFailed bad)) := by
  obtain ⟨h1, h2⟩ := for_dev_go_spec dev oracle lines mps h
  constructor
  · intro hall
    unfold sync_block_device
    rw [h1 hall]
    cases bd <;> simp
  · intro good bad rest hsplit hgood hbad
    unfold sync_block_device
    rw [h2 good bad rest hsplit hgood hbad]
    exact ⟨rfl, rfl, rfl⟩

theorem mount_sync_stops_at_first_failure_witness :
    (sync_block_device
        [[47, 100, 101, 118, 47, 115, 100, 97, 49, 32, 47, 109, 110, 116, 47,
          97, 32, 120],
         [47, 100, 101, 118, 47, 115, 100, 97, 50, 32, 47, 109, 110, 116, 47,
          98, 32, 120]]
        [115, 100, 97] (fun mp => mp != [47, 109, 110, 116, 47, 97])
        true).fsCalls = [] ++ [[47, 109, 110, 116, 47, 97]] ∧
    (sync_block_device
        [[47, 100, 101, 118, 47, 115, 100, 97, 49, 32, 47, 109, 110, 116, 47,
          97, 32, 120],
         [47, 100, 101, 118, 47, 115, 100, 97, 50, 32, 47, 109, 110, 116, 47,
          98, 32, 120]]
        [115, 100, 97] (fun mp => mp != [47, 109, 110, 116, 47, 97])
        true).blockdevAttempted = false ∧
    (sync_block_device
        [[47, 100, 101, 118, 47, 115, 100, 97, 49, 32, 47, 109, 110, 116, 47,
          97, 32, 120],
         [47, 100, 101, 118, 47, 115, 100, 97, 50, 32, 47, 109, 110, 116, 47,
          98, 32, 120]]
        [115, 100, 97] (fun mp => mp != [47, 109, 110, 116, 47, 97])
        true).loggedError = some (.fsFailed [47, 109, 110, 116, 47, 97]) :=
  (mount_sync_stops_at_first_failure _ _ _ true
      [[47, 109, 110, 116, 47, 97], [47, 109, 110, 116, 47, 98]]
      (by decide)).2
    [] [47, 109, 110, 116, 47, 97] [[47, 109, 110, 116, 47, 98]]
    (by decide) (by simp) (by decide)

/-! ## Refresh idempotence support -/

/-- Accumulator of a device name over a run of parsed pairs, starting from
`v₀`: the wrapping sum of the sectors of every pair carrying that name (the
order in which `check_activity` folds them). -/
def updTotal (v₀ : Nat) (n : List Nat) (pairs : List (List Nat × Nat)) : Nat :=
  pairs.foldl (fun acc p => if p.1 = n then wrappingAdd acc p.2 else acc) v₀

lemma updTotal_nil (v₀ : Nat) (n : List Nat) : updTotal v₀ n [] = v₀ := rfl

lemma updTotal_cons (v₀ : Nat) (n : List Nat) (p : List Nat × Nat)
    (ps : List (List Nat × Nat)) :
    updTotal v₀ n (p :: ps) =
      updTotal (if p.1 = n then wrappingAdd v₀ p.2 else v₀) n ps := rfl

lemma updTotal_lt (n : List Nat) :
    ∀ (ps : List (List Nat × Nat)) (v₀ : Nat), v₀ < USIZE →
      updTotal v₀ n ps < USIZE := by
  intro ps
  induction ps with
  | nil => intro v₀ h; exact h
  | cons p ps ih =>
    intro v₀ h
    rw [updTotal_cons]
    by_cases hp : p.1 = n
    · exact ih _ (by simp [hp, wrappingAdd]; exact Nat.mod_lt _ (by norm_num [USIZE]))
    · simpa [hp] using ih v₀ h

lemma sectorsInc_self (a : Nat) : Device.sectorsInc a a = 0 := by
  unfold Device.sectorsInc wrappingSub
  have hW : USIZE = 18446744073709551616 := by norm_num [USIZE]
  rw [hW]
  omega

lemma sectorsInc_eq_zero (a b : Nat) (ha : a < USIZE) (hb : b < USIZE)
    (h : Device.sectorsInc a b = 0) : a = b := by
  unfold Device.sectorsInc wrappingSub at h
  have hW : USIZE = 18446744073709551616 := by norm_num [USIZE]
  rw [hW] at h ha hb
  omega

lemma map_insertIdx {α β : Type} (f : α → β) (a : α) :
    ∀ (n : Nat) (l : List α),
      (l.insertIdx n a).map f = (l.map f).insertIdx n (f a) := by
  intro n
  induction n with
  | zero => intro l; simp [List.insertIdx_zero]
  | succ n ih =>
    intro l
    cases l with
    | nil => simp [List.insertIdx_succ_nil]
    | cons b l => simp [List.insertIdx_succ_cons, ih]

lemma insertIdx_perm {α : Type} (a : α) :
    ∀ (n : Nat) (l : List α), n ≤ l.length → (l.insertIdx n a).Perm (a :: l) := by
  intro n
  induction n with
  | zero => intro l _; simp [List.insertIdx_zero]
  | succ n ih =>
    intro l hl
    cases l with
    | nil => simp at hl
    | cons b l =>
      rw [List.insertIdx_succ_cons]
      exact (List.Perm.cons b (ih l (by simpa using hl))).trans
        (List.Perm.swap a b l)

lemma parseLines_ok_sectors :
    ∀ (lines : List (List Nat)) (pairs : List (List Nat × Nat)),
      parseLines lines = .ok pairs → ∀ p ∈ pairs, p.2 < USIZE := by
  intro lines
  induction lines with
  | nil =>
    intro pairs h
    obtain rfl : ([] : List (List Nat × Nat)) = pairs := by
      simpa [parseLines] using h
    simp
  | cons l ls ih =>
    intro pairs h
    rw [parseLines] at h
    cases hl : parse_line l with
    | error e => rw [hl] at h; exact absurd h (by simp)
    | ok r =>
      rw [hl] at h
      cases r with
      | none => exact ih pairs h
      | some p =>
        cases hp : parseLines ls with
        | error e => rw [hp] at h; exact absurd h (by simp)
        | ok ps =>
          rw [hp] at h
          obtain rfl : p :: ps = pairs := by simpa using h
          intro q hq
          rcases List.mem_cons.mp hq with rfl | hq'
          · exact ((parseTokens_inv (tokenize l)).2 q hl).2.1
          · exact ih ps hp q hq'

lemma set_same {α : Type} :
    ∀ (l : List α) (i : Nat) (a : α), l.get? i = some a → l.set i a = l := by
  intro l
  induction l with
  | nil => intro i a h; simp at h
  | cons b l ih =>
    intro i a h
    cases i with
    | zero =>
      obtain rfl : b = a := by simpa using h
      simp
    | succ i =>
      simp only [List.set_cons_succ]
      rw [ih i a (by simpa using h)]

lemma process_pairs_general {T : Type} (create : List Nat → T) :
    ∀ (pairs : List (List Nat × Nat)) (st : List (Entry T)) (hint : Nat),
      (∀ p ∈ pairs, p.2 < USIZE) →
      (st.map Entry.name).Nodup → hint ≤ st.length →
      ((process_pairs create st hint pairs).1.map Entry.name).Nodup ∧
      (∀ n, n ∈ (process_pairs create st hint pairs).1.map Entry.name ↔
        (n ∈ st.map Entry.name ∨ n ∈ pairs.map Prod.fst)) ∧
      (∀ e ∈ (process_pairs create st hint pairs).1,
        (∃ e₀ ∈ st, e₀.name = e.name ∧ e₀.value = e.value ∧
           e.sectors = updTotal e₀.sectors e.name pairs) ∨
        (e.name ∉ st.map Entry.name ∧ e.value = create e.name ∧
           e.sectors = updTotal 0 e.name pairs)) := by
  intro pairs
  induction pairs with
  | nil =>
    intro st hint _ hnd _
    exact ⟨hnd, by simp [process_pairs], fun e he => Or.inl ⟨e, he, rfl, rfl, rfl⟩⟩
  | cons p ps ih =>
    intro st hint hw hnd hhint
    have hw' : ∀ q ∈ ps, q.2 < USIZE := fun q hq => hw q (List.mem_cons_of_mem p hq)
    have hpw : p.2 < USIZE := hw p (List.mem_cons_self p ps)
    cases hfind : get_entry_idx st p.1 hint with
    | some i =>
      obtain ⟨hi, hname⟩ := get_entry_idx_some st p.1 hint i hfind
      have hgq : st.get? i = some (st.get ⟨i, hi⟩) := List.get?_eq_get hi
      have hp1mem : p.1 ∈ st.map Entry.name := by
        rw [← hname]
        exact List.mem_map_of_mem Entry.name (List.get_mem st i hi)
      have hstep : process_pairs create st hint (p :: ps) =
          process_pairs create
            (st.set i { st.get ⟨i, hi⟩ with
              sectors := wrappingAdd (st.get ⟨i, hi⟩).sectors p.2 }) i ps := by
        simp only [process_pairs, process_pair, hfind, updateAccAt, hgq]
      have hnames₁ :
          (st.set i { st.get ⟨i, hi⟩ with
            sectors := wrappingAdd (st.get ⟨i, hi⟩).sectors p.2 }).map Entry.name =
          st.map Entry.name := by
        rw [List.map_set]
        exact set_same _ i _ (by rw [List.get?_eq_getElem?, List.getElem?_map,
          ← List.get?_eq_getElem?, hgq]; rfl)
      have hlen₁ :
          (st.set i { st.get ⟨i, hi⟩ with
            sectors := wrappingAdd (st.get ⟨i, hi⟩).sectors p.2 }).length =
          st.length := by simp
      obtain ⟨H1, H2, H3⟩ := ih
        (st.set i { st.get ⟨i, hi⟩ with
          sectors := wrappingAdd (st.get ⟨i, hi⟩).sectors p.2 }) i hw'
        (by rw [hnames₁]; exact hnd) (by omega)
      rw [hstep]
      refine ⟨H1, fun n => ?_, fun e he => ?_⟩
      · rw [H2 n, hnames₁, List.map_cons]
        constructor
        · rintro (h | h)
          · exact Or.inl h
          · exact Or.inr (List.mem_cons_of_mem _ h)
        · rintro (h | h)
          · exact Or.inl h
          · rcases List.mem_cons.mp h with rfl | h'
            · exact Or.inl hp1mem
            · exact Or.inr h'
      · rcases H3 e he with ⟨e₀', he₀'mem, hn, hv, hs⟩ | ⟨hnin, hv, hs⟩
        · have hx : e₀' = { st.get ⟨i, hi⟩ with
                sectors := wrappingAdd (st.get ⟨i, hi⟩).sectors p.2 }
              ∨ (e₀' ∈ st ∧ e₀'.name ≠ p.1) := by
            by_cases hpn : e₀'.name = p.1
            · left
              obtain ⟨jf, hgetj⟩ := List.mem_iff_get.mp he₀'mem
              rw [List.get_eq_getElem, List.getElem_set] at hgetj
              by_cases hij : i = (jf : Nat)
              · rw [if_pos hij] at hgetj
                exact hgetj.symm
              · rw [if_neg hij] at hgetj
                exfalso
                apply hij
                have hjlen : (jf : Nat) < st.length := by
                  have := jf.isLt
                  simpa using this
                have h1 : (st.map Entry.name).get ⟨i, by simpa using hi⟩ =
                    p.1 := by
                  rw [List.get_eq_getElem, List.getElem_map]
                  exact hname
                have h2 : (st.map Entry.name).get
                    ⟨(jf : Nat), by simpa using hjlen⟩ = p.1 := by
                  rw [List.get_eq_getElem, List.getElem_map]
                  rw [← hgetj] at hpn
                  exact hpn
                have h3 := (hnd.get_inj_iff).mp (h1.trans h2.symm)
                simpa using h3
            · right
              refine ⟨?_, hpn⟩
              rcases List.mem_or_eq_of_mem_set he₀'mem with h' | h'
              · exact h'
              · exfalso
                apply hpn
                rw [h']
                exact hname
          rcases hx with heq | ⟨hmem', hpn⟩
          · left
            refine ⟨st.get ⟨i, hi⟩, List.get_mem st i hi, ?_, ?_, ?_⟩
            · rw [← hn, heq]
            · rw [← hv, heq]
            · have hpe : p.1 = e.name := by rw [← hn, heq]; exact hname.symm
              rw [updTotal_cons, if_pos hpe, hs, heq]
          · left
            refine ⟨e₀', hmem', hn, hv, ?_⟩
            rw [updTotal_cons, if_neg (fun hc => hpn (by rw [← hn] at hc; exact hc.symm)), hs]
        · right
          rw [hnames₁] at hnin
          refine ⟨hnin, hv, ?_⟩
          rw [updTotal_cons, if_neg ?_, hs]
          intro hcon
          exact hnin (hcon ▸ hp1mem)
    | none =>
      have hnone : ∀ e ∈ st, e.name ≠ p.1 :=
        get_entry_idx_none st p.1 hint hhint hfind
      have hnotin : p.1 ∉ st.map Entry.name := by
        intro hmem
        obtain ⟨e, hemem, hename⟩ := List.mem_map.mp hmem
        exact hnone e hemem hename
      have hjle : min st.length (hint + 1) ≤ st.length := Nat.min_le_left _ _
      have hstep : process_pairs create st hint (p :: ps) =
          process_pairs create
            (st.insertIdx (min st.length (hint + 1)) ⟨p.1, p.2, create p.1⟩)
            (min st.length (hint + 1)) ps := by
        simp only [process_pairs, process_pair, hfind]
      have hperm :
          ((st.insertIdx (min st.length (hint + 1))
            ⟨p.1, p.2, create p.1⟩).map Entry.name).Perm
            (p.1 :: st.map Entry.name) := by
        rw [map_insertIdx]
        exact insertIdx_perm _ _ _ (by simp)
      have hnd₁ :
          ((st.insertIdx (min st.length (hint + 1))
            ⟨p.1, p.2, create p.1⟩).map Entry.name).Nodup :=
        hperm.nodup_iff.mpr (List.nodup_cons.mpr ⟨hnotin, hnd⟩)
      have hlen₁ :
          (st.insertIdx (min st.length (hint + 1))
            ⟨p.1, p.2, create p.1⟩).length = st.length + 1 :=
        List.length_insertIdx _ _ hjle
      obtain ⟨H1, H2, H3⟩ := ih
        (st.insertIdx (min st.length (hint + 1)) ⟨p.1, p.2, create p.1⟩)
        (min st.length (hint + 1)) hw' hnd₁ (by omega)
      rw [hstep]
      refine ⟨H1, fun n => ?_, fun e he => ?_⟩
      · rw [H2 n, List.map_cons]
        constructor
        · rintro (h | h)
          · rcases List.mem_cons.mp (hperm.mem_iff.mp h) with rfl | h'
            · exact Or.inr (List.mem_cons_self _ _)
            · exact Or.inl h'
          · exact Or.inr (List.mem_cons_of_mem _ h)
        · rintro (h | h)
          · exact Or.inl (hperm.mem_iff.mpr (List.mem_cons_of_mem _ h))
          · rcases List.mem_cons.mp h with rfl | h'
            · exact Or.inl (hperm.mem_iff.mpr (List.mem_cons_self _ _))
            · exact Or.inr h'
      · rcases H3 e he with ⟨e₀', he₀'mem, hn, hv, hs⟩ | ⟨hnin, hv, hs⟩
        · rcases (List.mem_insertIdx hjle).mp he₀'mem with rfl | hmem'
          · right
            have hne : e.name = p.1 := hn.symm
            refine ⟨by rw [hne]; exact hnotin, by rw [← hv, hne], ?_⟩
            rw [updTotal_cons, if_pos hne.symm]
            have hwz : wrappingAdd 0 p.2 = p.2 := by
              unfold wrappingAdd
              simpa using Nat.mod_eq_of_lt hpw
            rw [hwz, hs]
          · left
            refine ⟨e₀', hmem', hn, hv, ?_⟩
            rw [updTotal_cons, if_neg ?_, hs]
            intro hcon
            exact hnone e₀' hmem' (by rw [hn, ← hcon])
        · right
          have hnin' : e.name ∉ st.map Entry.name := fun hmem =>
            hnin (hperm.mem_iff.mpr (List.mem_cons_of_mem _ hmem))
          refine ⟨hnin', hv, ?_⟩
          rw [updTotal_cons, if_neg ?_, hs]
          intro hcon
          exact hnin (hcon ▸ hperm.mem_iff.mpr (List.mem_cons_self _ _))

lemma process_pairs_no_insert {T : Type} (create : List Nat → T) :
    ∀ (pairs : List (List Nat × Nat)) (st : List (Entry T)) (hint : Nat),
      (∀ p ∈ pairs, p.1 ∈ st.map Entry.name) →
      (st.map Entry.name).Nodup → hint ≤ st.length →
      (process_pairs create st hint pairs).1.length = st.length ∧
      ∀ i (hi : i < st.length),
        ∃ e', (process_pairs create st hint pairs).1.get? i = some e' ∧
          e'.name = (st.get ⟨i, hi⟩).name ∧
          e'.value = (st.get ⟨i, hi⟩).value ∧
          e'.sectors =
            updTotal (st.get ⟨i, hi⟩).sectors (st.get ⟨i, hi⟩).name pairs := by
  intro pairs
  induction pairs with
  | nil =>
    intro st hint _ _ _
    refine ⟨rfl, fun i hi => ⟨st.get ⟨i, hi⟩, ?_, rfl, rfl, rfl⟩⟩
    exact List.get?_eq_get hi
  | cons p ps ih =>
    intro st hint hmem hnd hhint
    have hmem' : ∀ q ∈ ps, q.1 ∈ st.map Entry.name :=
      fun q hq => hmem q (List.mem_cons_of_mem p hq)
    have hp1 : p.1 ∈ st.map Entry.name := hmem p (List.mem_cons_self p ps)
    cases hfind : get_entry_idx st p.1 hint with
    | none =>
      exfalso
      obtain ⟨e, hemem, hename⟩ := List.mem_map.mp hp1
      exact get_entry_idx_none st p.1 hint hhint hfind e hemem hename
    | some j =>
      obtain ⟨hj, hname⟩ := get_entry_idx_some st p.1 hint j hfind
      have hgq : st.get? j = some (st.get ⟨j, hj⟩) := List.get?_eq_get hj
      have hstep : process_pairs create st hint (p :: ps) =
          process_pairs create
            (st.set j { st.get ⟨j, hj⟩ with
              sectors := wrappingAdd (st.get ⟨j, hj⟩).sectors p.2 }) j ps := by
        simp only [process_pairs, process_pair, hfind, updateAccAt, hgq]
      have hnames₁ :
          (st.set j { st.get ⟨j, hj⟩ with
            sectors := wrappingAdd (st.get ⟨j, hj⟩).sectors p.2 }).map Entry.name =
          st.map Entry.name := by
        rw [List.map_set]
        exact set_same _ j _ (by rw [List.get?_eq_getElem?, List.getElem?_map,
          ← List.get?_eq_getElem?, hgq]; rfl)
      have hlen₁ :
          (st.set j { st.get ⟨j, hj⟩ with
            sectors := wrappingAdd (st.get ⟨j, hj⟩).sectors p.2 }).length =
          st.length := by simp
      obtain ⟨H1, H2⟩ := ih
        (st.set j { st.get ⟨j, hj⟩ with
          sectors := wrappingAdd (st.get ⟨j, hj⟩).sectors p.2 }) j
        (by rw [hnames₁]; exact hmem') (by rw [hnames₁]; exact hnd) (by omega)
      rw [hstep]
      refine ⟨by rw [H1, hlen₁], fun i hi => ?_⟩
      have hi₁ : i < (st.set j { st.get ⟨j, hj⟩ with
          sectors := wrappingAdd (st.get ⟨j, hj⟩).sectors p.2 }).length := by
        rw [hlen₁]; exact hi
      obtain ⟨e', hE, hN, hV, hS⟩ := H2 i hi₁
      refine ⟨e', hE, ?_⟩
      by_cases hij : j = i
      · subst hij
        have hset : (st.set j { st.get ⟨j, hj⟩ with
            sectors := wrappingAdd (st.get ⟨j, hj⟩).sectors p.2 }).get ⟨j, hi₁⟩ =
            { st.get ⟨j, hj⟩ with
              sectors := wrappingAdd (st.get ⟨j, hj⟩).sectors p.2 } := by
          rw [List.get_eq_getElem, List.getElem_set, if_pos rfl]
        rw [hset] at hN hV hS
        refine ⟨hN, hV, ?_⟩
        rw [hS, updTotal_cons, if_pos hname.symm]
      · have hset : (st.set j { st.get ⟨j, hj⟩ with
            sectors := wrappingAdd (st.get ⟨j, hj⟩).sectors p.2 }).get ⟨i, hi₁⟩ =
            st.get ⟨i, hi⟩ := by
          rw [List.get_eq_getElem, List.getElem_set, if_neg hij]
          rfl
        rw [hset] at hN hV hS
        have hnne : p.1 ≠ (st.get ⟨i, hi⟩).name := by
          intro hcon
          apply hij
          have h1 : (st.map Entry.name).get ⟨j, by simpa using hj⟩ = p.1 := by
            rw [List.get_eq_getElem, List.getElem_map]
            exact hname
          have h2 : (st.map Entry.name).get ⟨i, by simpa using hi⟩ = p.1 := by
            rw [List.get_eq_getElem, List.getElem_map]
            exact hcon.symm
          have h3 := (hnd.get_inj_iff).mp (h1.trans h2.symm)
          simpa using h3
        refine ⟨hN, hV, ?_⟩
        rw [hS, updTotal_cons, if_neg hnne]

lemma tickAll_some_spec (now : Nat) :
    ∀ (es es' : List (Entry DeviceData)) (effs : List Effect),
      tickAll now es = some (es', effs) →
      es'.length = es.length ∧
      ∀ i e, es.get? i = some e →
        ∃ r, Device.tick now e.name e.sectors e.value = some r ∧
          es'.get? i = some { e with value := r.data } := by
  intro es
  induction es with
  | nil =>
    intro es' effs h
    obtain ⟨h1, h2⟩ : ([] : List (Entry DeviceData)) = es' ∧ ([] : List Effect) = effs := by
      simpa [tickAll] using h
    subst h1
    exact ⟨rfl, fun i e he => by simp at he⟩
  | cons e es ih =>
    intro es' effs h
    rw [tickAll] at h
    cases hr : Device.tick now e.name e.sectors e.value with
    | none => rw [hr] at h; exact absurd h (by simp)
    | some r =>
      rw [hr] at h
      cases hrest : tickAll now es with
      | none => rw [hrest] at h; exact absurd h (by simp)
      | some out =>
        obtain ⟨es₀, effs₀⟩ := out
        rw [hrest] at h
        obtain ⟨h1, h2⟩ : { e with value := r.data } :: es₀ = es' ∧
            r.effects ++ effs₀ = effs := by simpa using h
        subst h1
        obtain ⟨hl, hspec⟩ := ih es₀ effs₀ hrest
        refine ⟨by simpa using hl, fun i e' he' => ?_⟩
        cases i with
        | zero =>
          obtain rfl : e = e' := by simpa using he'
          exact ⟨r, hr, by simp⟩
        | succ i =>
          obtain ⟨r', hr', hes⟩ := hspec i e' (by simpa using he')
          exact ⟨r', hr', by simpa using hes⟩

lemma tickAll_isSome (now : Nat) :
    ∀ es : List (Entry DeviceData),
      (∀ e ∈ es, (Device.tick now e.name e.sectors e.value).isSome = true) →
      (tickAll now es).isSome = true := by
  intro es
  induction es with
  | nil => intro _; simp [tickAll]
  | cons e es ih =>
    intro h
    rw [tickAll]
    cases hr : Device.tick now e.name e.sectors e.value with
    | none =>
      have := h e (List.mem_cons_self e es)
      rw [hr] at this
      simp at this
    | some r =>
      cases hrest : tickAll now es with
      | none =>
        have := ih fun e' he' => h e' (List.mem_cons_of_mem e he')
        rw [hrest] at this
        simp at this
      | some out => simp

lemma tick_twice (now : Nat) (nm : List Nat) (acc : Nat) (d : DeviceData)
    (hinv : d.config.idle_time = 0 → d.state = .Spinning)
    (r₁ : TickRes) (h₁ : Device.tick now nm acc d = some r₁) :
    Device.sectorsInc acc r₁.data.sectors = 0 ∧
    ∃ r₂, Device.tick now nm acc r₁.data = some r₂ ∧
      r₂.data.state =
        (if r₁.data.state = .Synced then .Idle else r₁.data.state) := by
  by_cases hq : Device.sectorsInc acc d.sectors = 0
  · by_cases hm : d.last_io ≤ now
    · by_cases h0 : d.config.idle_time = 0
      · have ht : Device.tick now nm acc d = some ⟨.Spinning, d, []⟩ := by
          simp [Device.tick, hq, hm, h0]
        rw [ht] at h₁
        obtain rfl := (Option.some.inj h₁).symm
        have hst : d.state = .Spinning := hinv h0
        refine ⟨hq, ⟨.Spinning, d, []⟩, by simp [Device.tick, hq, hm, h0], ?_⟩
        simp [hst]
      · cases hst : d.state with
        | Spinning =>
          by_cases hdur : d.config.idle_time ≤ now - d.last_io
          · by_cases hf : d.config.sync_flags &&& SYNC_SPIN_DOWN = 0
            · have ht : Device.tick now nm acc d =
                  some ⟨.Idle, { d with state := .Idle },
                    [.spindownRequest nm]⟩ := by
                simp [Device.tick, hq, hm, h0, hst, hdur, hf]
              rw [ht] at h₁
              obtain rfl := (Option.some.inj h₁).symm
              refine ⟨hq, ⟨.Idle, { d with state := .Idle }, []⟩, ?_, by simp⟩
              simp [Device.tick, hq, hm, h0]
            · have ht : Device.tick now nm acc d =
                  some ⟨.Synced, { d with state := .Synced },
                    [.syncRequest nm, .spindownRequest nm]⟩ := by
                simp [Device.tick, hq, hm, h0, hst, hdur, hf]
              rw [ht] at h₁
              obtain rfl := (Option.some.inj h₁).symm
              refine ⟨hq, ⟨.Idle, { d with state := .Idle }, []⟩, ?_, by simp⟩
              simp [Device.tick, hq, hm, h0]
          · have ht : Device.tick now nm acc d =
                some ⟨.Spinning, { d with state := .Spinning }, []⟩ := by
              simp [Device.tick, hq, hm, h0, hst, hdur]
            rw [ht] at h₁
            obtain rfl := (Option.some.inj h₁).symm
            refine ⟨hq, ⟨.Spinning, { d with state := .Spinning }, []⟩, ?_, by simp⟩
            simp [Device.tick, hq, hm, h0, hdur]
        | Synced =>
          have ht : Device.tick now nm acc d =
              some ⟨.Idle, { d with state := .Idle }, []⟩ := by
            simp [Device.tick, hq, hm, h0, hst]
          rw [ht] at h₁
          obtain rfl := (Option.some.inj h₁).symm
          refine ⟨hq, ⟨.Idle, { d with state := .Idle }, []⟩, ?_, by simp⟩
          simp [Device.tick, hq, hm, h0]
        | Idle =>
          have ht : Device.tick now nm acc d =
              some ⟨.Idle, { d with state := .Idle }, []⟩ := by
            simp [Device.tick, hq, hm, h0, hst]
          rw [ht] at h₁
          obtain rfl := (Option.some.inj h₁).symm
          refine ⟨hq, ⟨.Idle, { d with state := .Idle }, []⟩, ?_, by simp⟩
          simp [Device.tick, hq, hm, h0]
    · have ht : Device.tick now nm acc d = none := by
        simp [Device.tick, hq, hm]
      rw [ht] at h₁
      exact absurd h₁ (by simp)
  · by_cases h0 : d.config.idle_time = 0
    · have ht : Device.tick now nm acc d =
          some ⟨.Spinning, { d with sectors := acc, last_io := now }, []⟩ := by
        simp [Device.tick, hq, h0]
      rw [ht] at h₁
      obtain rfl := (Option.some.inj h₁).symm
      have hst : d.state = .Spinning := hinv h0
      refine ⟨sectorsInc_self acc,
        ⟨.Spinning, { d with sectors := acc, last_io := now }, []⟩, ?_, ?_⟩
      · simp [Device.tick, sectorsInc_self, h0]
      · simp [hst]
    · have hnd : ¬ d.config.idle_time ≤ 0 := by omega
      cases hst : d.state with
      | Spinning =>
        have ht : Device.tick now nm acc d =
            some ⟨.Spinning,
              { d with sectors := acc, last_io := now, state := .Spinning },
              []⟩ := by
          simp [Device.tick, hq, h0, hst, hnd]
        rw [ht] at h₁
        obtain rfl := (Option.some.inj h₁).symm
        refine ⟨sectorsInc_self acc,
          ⟨.Spinning,
            { d with sectors := acc, last_io := now, state := .Spinning },
            []⟩, ?_, by simp⟩
        simp [Device.tick, sectorsInc_self, h0, hnd]
      | Synced =>
        have ht : Device.tick now nm acc d =
            some ⟨.Idle,
              { d with sectors := acc, last_io := now, state := .Idle },
              []⟩ := by
          simp [Device.tick, hq, h0, hst]
        rw [ht] at h₁
        obtain rfl := (Option.some.inj h₁).symm
        refine ⟨sectorsInc_self acc,
          ⟨.Idle,
            { d with sectors := acc, last_io := now, state := .Idle },
            []⟩, ?_, by simp⟩
        simp [Device.tick, sectorsInc_self, h0]
      | Idle =>
        by_cases hf : d.config.sync_flags &&& SYNC_SPIN_UP = 0
        · have ht : Device.tick now nm acc d =
              some ⟨.Spinning,
                { d with sectors := acc, last_io := now, state := .Spinning },
                []⟩ := by
            simp [Device.tick, hq, h0, hst, hf]
          rw [ht] at h₁
          obtain rfl := (Option.some.inj h₁).symm
          refine ⟨sectorsInc_self acc,
            ⟨.Spinning,
              { d with sectors := acc, last_io := now, state := .Spinning },
              []⟩, ?_, by simp⟩
          simp [Device.tick, sectorsInc_self, h0, hnd]
        · have ht : Device.tick now nm acc d =
              some ⟨.Spinning,
                { d with sectors := acc, last_io := now, state := .Spinning },
                [.syncRequest nm]⟩ := by
            simp [Device.tick, hq, h0, hst, hf]
          rw [ht] at h₁
          obtain rfl := (Option.some.inj h₁).symm
          refine ⟨sectorsInc_self acc,
            ⟨.Spinning,
              { d with sectors := acc, last_io := now, state := .Spinning },
              []⟩, ?_, by simp⟩
          simp [Device.tick, sectorsInc_self, h0, hnd]

lemma resetAcc_names {T : Type} (st : List (Entry T)) :
    (resetAcc st).map Entry.name = st.map Entry.name := by
  unfold resetAcc
  rw [List.map_map]
  rfl

lemma resetAcc_length {T : Type} (st : List (Entry T)) :
    (resetAcc st).length = st.length := by
  simp [resetAcc]

lemma resetAcc_get? {T : Type} (st : List (Entry T)) (i : Nat) :
    (resetAcc st).get? i =
      (st.get? i).map (fun e => { e with sectors := 0 }) := by
  simp [resetAcc]

/-- C9: re-running the refresh with an unchanged snapshot at the same
wall-clock time, starting from a ledger with unique device names that
respects the `idle_time == 0 → Spinning` invariant, succeeds, computes a
zero per-tick delta for every device, and leaves every device's state
unchanged — except a device left in `Synced`, which still advances to
`Idle` on the second call. -/
theorem refresh_idempotent_modulo_synced (cfg : DeviceConfig)
    (st : List (Entry DeviceData)) (lines : List (List Nat)) (now : Nat)
    (hnodup : (st.map Entry.name).Nodup)
    (hinv : ∀ e ∈ st, e.value.config.idle_time = 0 → e.value.state = .Spinning)
    (st₁ : List (Entry DeviceData)) (effs₁ : List Effect)
    (h₁ : refresh cfg st (some lines) now = .ok (some (st₁, effs₁))) :
    ∃ st₂ effs₂, refresh cfg st₁ (some lines) now = .ok (some (st₂, effs₂)) ∧
      st₂.length = st₁.length ∧
      ∀ i e₁ e₂, st₁.get? i = some e₁ → st₂.get? i = some e₂ →
        e₂.name = e₁.name ∧
        Device.sectorsInc e₂.sectors e₁.value.sectors = 0 ∧
        e₂.value.state =
          (if e₁.value.state = .Synced then .Idle else e₁.value.state) := by
  -- Unpack the first refresh.
  rw [refresh] at h₁
  cases hca : check_activity (fun _ => DeviceData.fromConfig cfg) st
      (some lines) with
  | error e => rw [hca] at h₁; exact absurd h₁ (by simp)
  | ok stP =>
    rw [hca] at h₁
    have hta : tickAll now stP = some (st₁, effs₁) := by simpa using h₁
    rw [check_activity] at hca
    cases hpl : parseLines lines with
    | error e => rw [hpl] at hca; exact absurd hca (by simp)
    | ok pairs =>
      rw [hpl] at hca
      have hstP : (process_pairs (fun _ => DeviceData.fromConfig cfg)
          (resetAcc st) 0 pairs).1 = stP := by simpa using hca
      have hpw : ∀ p ∈ pairs, p.2 < USIZE := parseLines_ok_sectors lines pairs hpl
      have hnd0 : ((resetAcc st).map Entry.name).Nodup := by
        rw [resetAcc_names]; exact hnodup
      obtain ⟨G1, G2, G3⟩ := process_pairs_general
        (fun _ => DeviceData.fromConfig cfg) pairs (resetAcc st) 0 hpw hnd0
        (Nat.zero_le _)
      rw [hstP] at G1 G2 G3
      -- Every processed entry: accumulator is the per-name total and the
      -- payload respects the idle-zero invariant.
      have HP : ∀ e ∈ stP, e.sectors = updTotal 0 e.name pairs ∧
          (e.value.config.idle_time = 0 → e.value.state = .Spinning) := by
        intro e he
        rcases G3 e he with ⟨e₀, he₀, hn, hv, hs⟩ | ⟨_, hv, hs⟩
        · obtain ⟨orig, horig, rfl⟩ := List.mem_map.mp (by
            simpa [resetAcc] using he₀)
          refine ⟨by rw [hs], ?_⟩
          rw [← hv]
          exact hinv orig horig
        · exact ⟨hs, by rw [hv]; intro _; rfl⟩
      obtain ⟨hlen₁, TS⟩ := tickAll_some_spec now stP st₁ effs₁ hta
      -- Names of the ticked ledger match the processed ledger positionally.
      have hnames₁ : st₁.map Entry.name = stP.map Entry.name := by
        apply List.ext_get?
        intro n
        rw [List.get?_map, List.get?_map]
        cases hg : stP.get? n with
        | none =>
          have hn' : stP.length ≤ n := List.get?_eq_none.mp hg
          have : st₁.get? n = none := List.get?_eq_none.mpr (by omega)
          rw [this]
        | some e =>
          obtain ⟨r, _, hes⟩ := TS n e hg
          rw [hes]
          rfl
      -- The per-index bundle from the first refresh.
      have KEY : ∀ i e₁, st₁.get? i = some e₁ →
          ∃ (eP : Entry DeviceData) (r₁ : TickRes),
            stP.get? i = some eP ∧ e₁ = { eP with value := r₁.data } ∧
            eP.sectors = updTotal 0 eP.name pairs ∧
            Device.sectorsInc eP.sectors r₁.data.sectors = 0 ∧
            ∃ (r₂ : TickRes),
              Device.tick now eP.name eP.sectors r₁.data = some r₂ ∧
              r₂.data.state =
                (if r₁.data.state = .Synced then .Idle else r₁.data.state) := by
        intro i e₁ he₁
        have hi : i < st₁.length := by
          by_contra hcon
          rw [List.get?_eq_none.mpr (by omega)] at he₁
          exact absurd he₁ (by simp)
        cases hg : stP.get? i with
        | none =>
          have := List.get?_eq_none.mp hg
          omega
        | some eP =>
          obtain ⟨r₁, hr₁, hes⟩ := TS i eP hg
          have he₁eq : e₁ = { eP with value := r₁.data } :=
            Option.some.inj (he₁.symm.trans hes)
          have hePmem : eP ∈ stP := by
            obtain ⟨hlt, hget⟩ := List.get?_eq_some.mp hg
            rw [← hget]
            exact List.get_mem stP i hlt
          obtain ⟨hsec, hinv'⟩ := HP eP hePmem
          obtain ⟨hz, r₂, hr₂, hstate⟩ :=
            tick_twice now eP.name eP.sectors eP.value hinv' r₁ hr₁
          exact ⟨eP, r₁, rfl, he₁eq, hsec, hz, r₂, hr₂, hstate⟩
      -- Second refresh: same parse, in-place processing, per-entry tick.
      have hmem2 : ∀ p ∈ pairs, p.1 ∈ (resetAcc st₁).map Entry.name := by
        intro p hp
        rw [resetAcc_names, hnames₁]
        exact (G2 p.1).mpr (Or.inr (List.mem_map_of_mem Prod.fst hp))
      have hnd2 : ((resetAcc st₁).map Entry.name).Nodup := by
        rw [resetAcc_names, hnames₁]; exact G1
      obtain ⟨N1, N2⟩ := process_pairs_no_insert
        (fun _ => DeviceData.fromConfig cfg) pairs (resetAcc st₁) 0 hmem2 hnd2
        (Nat.zero_le _)
      -- Characterize every entry of the second processed ledger.
      have QCHAR : ∀ i e₁, st₁.get? i = some e₁ →
          ∃ e', (process_pairs (fun _ => DeviceData.fromConfig cfg)
              (resetAcc st₁) 0 pairs).1.get? i = some e' ∧
            e'.name = e₁.name ∧ e'.value = e₁.value ∧
            e'.sectors = updTotal 0 e₁.name pairs := by
        intro i e₁ he₁
        have hi : i < st₁.length := by
          by_contra hcon
          rw [List.get?_eq_none.mpr (by omega)] at he₁
          exact absurd he₁ (by simp)
        have hi' : i < (resetAcc st₁).length := by
          rw [resetAcc_length]; exact hi
        obtain ⟨e', hE, hN, hV, hS⟩ := N2 i hi'
        have hreset : (resetAcc st₁).get ⟨i, hi'⟩ = { e₁ with sectors := 0 } := by
          have h1 : (resetAcc st₁).get? i = some ((resetAcc st₁).get ⟨i, hi'⟩) :=
            List.get?_eq_get hi'
          rw [resetAcc_get?, he₁] at h1
          exact (Option.some.inj h1).symm
        rw [hreset] at hN hV hS
        exact ⟨e', hE, hN, hV, hS⟩
      -- Every tick of the second pass succeeds.
      have hQsome : ∀ e' ∈ (process_pairs (fun _ => DeviceData.fromConfig cfg)
          (resetAcc st₁) 0 pairs).1,
          (Device.tick now e'.name e'.sectors e'.value).isSome = true := by
        intro e' he'
        obtain ⟨jf, hgetj⟩ := List.mem_iff_get.mp he'
        have hj : (jf : Nat) < st₁.length := by
          have hPQlen : (process_pairs (fun _ => DeviceData.fromConfig cfg)
              (resetAcc st₁) 0 pairs).1.length = st₁.length := by
            rw [N1, resetAcc_length]
          exact lt_of_lt_of_eq jf.isLt hPQlen
        obtain ⟨e₁, he₁⟩ : ∃ e₁, st₁.get? (jf : Nat) = some e₁ :=
          ⟨st₁.get ⟨(jf : Nat), hj⟩, List.get?_eq_get hj⟩
        obtain ⟨e'', hE, hN, hV, hS⟩ := QCHAR (jf : Nat) e₁ he₁
        have he'eq : e'' = e' := by
          have h1 : (process_pairs (fun _ => DeviceData.fromConfig cfg)
              (resetAcc st₁) 0 pairs).1.get? (jf : Nat) = some e' := by
            rw [← hgetj]
            exact List.get?_eq_get jf.isLt
          rw [hE] at h1
          exact Option.some.inj h1
        obtain ⟨eP, r₁, hg, he₁eq, hsec, hz, r₂, hr₂, hstate⟩ :=
          KEY (jf : Nat) e₁ he₁
        have hNs : e'.name = eP.name := by rw [← he'eq, hN, he₁eq]
        have hVs : e'.value = r₁.data := by rw [← he'eq, hV, he₁eq]
        have hSs : e'.sectors = eP.sectors := by
          rw [← he'eq, hS, he₁eq]
          exact hsec.symm
        rw [hNs, hVs, hSs, hr₂]
        rfl
      have hQex := tickAll_isSome now _ hQsome
      cases hQ : tickAll now (process_pairs (fun _ => DeviceData.fromConfig cfg)
          (resetAcc st₁) 0 pairs).1 with
      | none => rw [hQ] at hQex; simp at hQex
      | some out =>
        obtain ⟨st₂, effs₂⟩ := out
        refine ⟨st₂, effs₂, ?_, ?_, ?_⟩
        · rw [refresh, check_activity, hpl]
          simpa using hQ
        · obtain ⟨hl₂, _⟩ := tickAll_some_spec now _ st₂ effs₂ hQ
          rw [hl₂, N1, resetAcc_length]
        · intro i e₁ e₂ he₁ he₂
          obtain ⟨hl₂, TS₂⟩ := tickAll_some_spec now _ st₂ effs₂ hQ
          obtain ⟨e', hE, hN, hV, hS⟩ := QCHAR i e₁ he₁
          obtain ⟨r₂', hr₂', hes₂⟩ := TS₂ i e' hE
          obtain rfl : { e' with value := r₂'.data } = e₂ := by
            rw [hes₂] at he₂
            exact Option.some.inj he₂
          obtain ⟨eP, r₁, hg, he₁eq, hsec, hz, r₂, hr₂, hstate⟩ :=
            KEY i e₁ he₁
          have he₁name : e₁.name = eP.name := by rw [he₁eq]
          have he₁val : e₁.value = r₁.data := by rw [he₁eq]
          have hr₂'eq : r₂' = r₂ := by
            apply Option.some.inj
            rw [← hr₂']
            rw [hN, hV, hS, he₁name, he₁val, ← hsec]
            exact hr₂
          refine ⟨by simpa using hN, ?_, ?_⟩
          · have hsq : ({ e' with value := r₂'.data } :
                Entry DeviceData).sectors = eP.sectors := by
              rw [show ({ e' with value := r₂'.data } :
                Entry DeviceData).sectors = e'.sectors from rfl, hS,
                he₁name, ← hsec]
            rw [hsq, he₁val]
            exact hz
          · have hvq : ({ e' with value := r₂'.data } :
                Entry DeviceData).value = r₂.data := by
              rw [show ({ e' with value := r₂'.data } :
                Entry DeviceData).value = r₂'.data from rfl, hr₂'eq]
            rw [hvq, he₁val]
            exact hstate

theorem refresh_idempotent_modulo_synced_witness :
    ∃ st₂ effs₂,
      refresh ⟨60, 1, 0⟩
          [⟨[115, 100, 97], 24, ⟨24, .Spinning, 100, ⟨60, 1, 0⟩⟩⟩]
          (some [[56, 32, 48, 32, 115, 100, 97, 49, 32, 49, 32, 50, 32, 51, 32,
            52, 32, 53, 32, 54, 32, 55, 32, 56, 32, 57, 32, 49, 48, 32, 49, 49,
            32, 49, 50, 32, 49, 51, 32, 49, 52]]) 100 = .ok (some (st₂, effs₂)) ∧
      st₂.length =
        [(⟨[115, 100, 97], 24, ⟨24, .Spinning, 100, ⟨60, 1, 0⟩⟩⟩ :
          Entry DeviceData)].length ∧
      ∀ i e₁ e₂,
        [(⟨[115, 100, 97], 24, ⟨24, .Spinning, 100, ⟨60, 1, 0⟩⟩⟩ :
          Entry DeviceData)].get? i = some e₁ → st₂.get? i = some e₂ →
        e₂.name = e₁.name ∧
        Device.sectorsInc e₂.sectors e₁.value.sectors = 0 ∧
        e₂.value.state =
          (if e₁.value.state = .Synced then .Idle else e₁.value.state) :=
  refresh_idempotent_modulo_synced ⟨60, 1, 0⟩ []
    [[56, 32, 48, 32, 115, 100, 97, 49, 32, 49, 32, 50, 32, 51, 32, 52, 32, 53,
      32, 54, 32, 55, 32, 56, 32, 57, 32, 49, 48, 32, 49, 49, 32, 49, 50, 32,
      49, 51, 32, 49, 52]] 100 (by simp) (by simp)
    [⟨[115, 100, 97], 24, ⟨24, .Spinning, 100, ⟨60, 1, 0⟩⟩⟩] [] (by decide)

end RustIdle
